import Mathlib

/-!
Verification development for the benchmark execution and metrics-aggregation
engine of the `getman` repository (`src-tauri/src/engine/benchmark.rs`).

Embedding conventions:
* Rust `u64`/`u32`/`u16`/`usize` values are modelled as `ℕ` (none of the
  verified properties depends on wrap-around, and the source never relies on
  overflow).
* Rust `f64` latencies, rates and rounded outputs are modelled as `ℚ` with
  exact arithmetic; the comparisons and roundings the claims talk about are
  order/field facts that hold verbatim for the exact values.
* `HashMap<String, u64>` counters are modelled as total functions defaulting
  to `0` (`status_code_counts` is keyed by the numeric status code, which the
  source turns into its decimal string — an injective change of key type).
* The `hdrhistogram::Histogram::<u64>::new_with_bounds(1, 60_000_000, 3)`
  percentile structure is modelled by the multiset of recorded values after
  HDR value quantization (unit magnitude 0, 2048 sub-buckets for 3
  significant digits); `value_at_quantile` takes the `max 1 ⌈q·n⌉`-th
  smallest quantized value, which is exactly what the bucket scan of the
  crate returns (it reports the highest value equivalent to the bucket hit).
-/

namespace Getman

/-- One per-request outcome, mirroring `SampleResult` in `benchmark.rs`. -/
structure SampleResult where
  timestamp_ms : ℕ
  latency_ms : ℚ
  status_code : Option ℕ
  success : Bool
  error_type : Option String
  error_message : Option String
  bytes_in : ℕ
  bytes_out : ℕ
  sample_body : Option String
  cancelled : Bool
deriving DecidableEq, Repr

/-- Latency summary block, mirroring `BenchmarkLatencyMetrics`.

The source field `stddev_ms` is `round_to_3(sqrt(m2 / (count - 1)))`; square
roots are not rational, so the embedding stores the pre-square-root sample
variance `m2 / (count - 1)` in `stddev_sq_ms`.  Equality of `stddev_sq_ms`
implies equality of the source's `stddev_ms`, since the latter is a function
(`round_to_3 ∘ sqrt`) of the former. -/
structure BenchmarkLatencyMetrics where
  min_ms : ℚ
  avg_ms : ℚ
  max_ms : ℚ
  stddev_sq_ms : ℚ
  p50_ms : ℚ
  p90_ms : ℚ
  p95_ms : ℚ
  p99_ms : ℚ
deriving DecidableEq, Repr

/-- Default (all-zero) latency block, mirroring `Default` on the Rust side. -/
def BenchmarkLatencyMetrics.zero : BenchmarkLatencyMetrics :=
  ⟨0, 0, 0, 0, 0, 0, 0, 0⟩

/-- Summary metrics, mirroring `BenchmarkSummaryMetrics`. -/
structure BenchmarkSummaryMetrics where
  total_requests : ℕ
  success_count : ℕ
  error_count : ℕ
  error_rate : ℚ
  rps_avg : ℚ
  rps_peak : ℚ
  bytes_in : ℕ
  bytes_out : ℕ
  latency : BenchmarkLatencyMetrics
  status_code_counts : ℕ → ℕ
  error_type_counts : String → ℕ

/-- Default (all-zero / empty-map) summary, mirroring `Default`. -/
def BenchmarkSummaryMetrics.zero : BenchmarkSummaryMetrics :=
  ⟨0, 0, 0, 0, 0, 0, 0, 0, BenchmarkLatencyMetrics.zero, fun _ => 0, fun _ => 0⟩

/-- One per-second time-series point, mirroring `BenchmarkTimeseriesPoint`. -/
structure BenchmarkTimeseriesPoint where
  bucket_ts_ms : ℕ
  rps_success : ℕ
  rps_error : ℕ
  latency_p95_ms : ℚ
  latency_avg_ms : ℚ
  bytes_in : ℕ
  bytes_out : ℕ
deriving DecidableEq, Repr

/-- One display-histogram bucket, mirroring `BenchmarkHistogramBucket`. -/
structure BenchmarkHistogramBucket where
  lower_bound_ms : ℚ
  upper_bound_ms : ℚ
  count : ℕ
deriving DecidableEq, Repr

/-- One ranked error sample, mirroring `BenchmarkErrorSample`. -/
structure BenchmarkErrorSample where
  error_type : String
  status_code : Option ℕ
  message : String
  count : ℕ
  sample_body : Option String
deriving DecidableEq, Repr

/-- Aggregated output, mirroring `BenchmarkAggregatedMetrics`. -/
structure BenchmarkAggregatedMetrics where
  summary : BenchmarkSummaryMetrics
  timeseries : List BenchmarkTimeseriesPoint
  histogram : List BenchmarkHistogramBucket
  top_errors : List BenchmarkErrorSample

/-- Default (empty) aggregated metrics, mirroring
`BenchmarkAggregatedMetrics::default()`. -/
def BenchmarkAggregatedMetrics.zero : BenchmarkAggregatedMetrics :=
  ⟨BenchmarkSummaryMetrics.zero, [], [], []⟩

/-- The 18 fixed display-histogram edges (ms), mirroring `HISTOGRAM_EDGES_MS`. -/
def HISTOGRAM_EDGES_MS : List ℚ :=
  [0, 1, 2, 5, 10, 20, 50, 100, 200, 500, 1000, 2000, 5000, 10000,
   20000, 30000, 45000, 60000]

/-- `round_to_3` from the source: `(value * 1000.0).round() / 1000.0`.
All values it is applied to are nonnegative, where `round` (half-up) agrees
with Rust's `f64::round` (half-away-from-zero). -/
def round_to_3 (value : ℚ) : ℚ :=
  (round (value * 1000) : ℚ) / 1000

/-- `histogram_bucket_index` from the source: first `idx < 17` whose
half-open window `[edges[idx], edges[idx+1])` contains the latency, and the
last bucket (`16`) as the fall-through for anything at or above the last
edge. -/
def histogram_bucket_index (latency_ms : ℚ) : ℕ :=
  (((List.range (HISTOGRAM_EDGES_MS.length - 1)).find? fun idx =>
      decide (HISTOGRAM_EDGES_MS.getD idx 0 ≤ latency_ms) &&
        decide (latency_ms < HISTOGRAM_EDGES_MS.getD (idx + 1) 0)).getD
    (HISTOGRAM_EDGES_MS.length - 2))

/-- `percentile` from the source (used for the per-second time series):
index `⌈pct/100 · n⌉ - 1` (saturating) clamped to `n - 1` into the sorted
list. -/
def percentile (sorted_values : List ℚ) (pct : ℚ) : ℚ :=
  if sorted_values.isEmpty then 0
  else
    sorted_values.getD
      (min ((⌈pct / 100 * (sorted_values.length : ℚ)⌉.toNat) - 1)
        (sorted_values.length - 1)) 0

/-- Welford accumulator, mirroring `RunningStats`. -/
structure RunningStats where
  count : ℕ
  mean : ℚ
  m2 : ℚ
  min : ℚ
  max : ℚ
deriving DecidableEq, Repr

/-- `RunningStats::default()`. -/
def RunningStats.init : RunningStats := ⟨0, 0, 0, 0, 0⟩

/-- `RunningStats::add`, the Welford update from the source. -/
def RunningStats.add (s : RunningStats) (value : ℚ) : RunningStats :=
  let mn := if s.count = 0 then value else Min.min s.min value
  let mx := if s.count = 0 then value else Max.max s.max value
  let count := s.count + 1
  let delta := value - s.mean
  let mean := s.mean + delta / (count : ℚ)
  let delta2 := value - mean
  ⟨count, mean, s.m2 + delta * delta2, mn, mx⟩

/-- Sample variance `m2 / (count - 1)` (0 below two samples); the source's
`stddev` is its square root. -/
def RunningStats.variance (s : RunningStats) : ℚ :=
  if s.count < 2 then 0 else s.m2 / ((s.count - 1 : ℕ) : ℚ)

/-- Shift of the HDR histogram bucket containing `v` (unit magnitude 0,
2048 sub-buckets, i.e. 3 significant decimal digits): values below 2048 are
exact, and each doubling widens the bucket by another bit.  This is the
bit length of `v ||| 2047` minus 11, written as the number of doublings of
2048 still at or below the masked value so that it evaluates by kernel
reduction (53 covers every 64-bit value). -/
def hdrBucketShift (v : ℕ) : ℕ :=
  ((List.range 53).filter fun k => 2048 * 2 ^ k ≤ v ||| 2047).length

/-- Highest value equivalent to `v` in the HDR histogram: the top of the
bucket `v` is recorded into.  This is the value `value_at_quantile` reports
for any value falling in that bucket. -/
def hdrEquiv (v : ℕ) : ℕ :=
  ((v >>> hdrBucketShift v) <<< hdrBucketShift v) + (1 <<< hdrBucketShift v) - 1

/-- The value actually represented by the histogram for a recorded latency:
`(latency_ms * 1000.0).round().max(1.0) as u64` then `.min(60_000_000)`
(lines 719–721 of the source), followed by HDR bucket quantization. -/
def hdrRecordValue (latency_ms : ℚ) : ℕ :=
  hdrEquiv (Nat.min ((max (round (latency_ms * 1000)) 1).toNat) 60000000)

/-- The recorded values in ascending order (insertion sort keeps the
definition reducible by the kernel; any sorting algorithm yields the same
list). -/
def hdrSorted (m : Multiset ℕ) : List ℕ :=
  Quot.liftOn m (fun l => l.insertionSort (· ≤ ·)) fun _ _ h =>
    List.eq_of_perm_of_sorted
      ((List.perm_insertionSort _ _).trans (h.trans (List.perm_insertionSort _ _).symm))
      (List.sorted_insertionSort _ _) (List.sorted_insertionSort _ _)

/-- `Histogram::value_at_quantile` on the multiset of recorded (quantized)
values: the `max 1 ⌈q·n⌉`-th smallest one, `0` on an empty histogram. -/
def hdrValueAtQuantile (m : Multiset ℕ) (q : ℚ) : ℕ :=
  if Multiset.card m = 0 then 0
  else (hdrSorted m).getD (Nat.max 1 (⌈q * (Multiset.card m : ℚ)⌉.toNat) - 1) 0

/-- Decimal digit rendering of a natural number (what `u16::to_string` /
`Display` produces for the status-code component of the top-error key). -/
def natKey (n : ℕ) : List Char :=
  if _h : n < 10 then [Nat.digitChar n]
  else natKey (n / 10) ++ [Nat.digitChar (n % 10)]
termination_by n
decreasing_by exact Nat.div_lt_self (by omega) (by omega)

/-- The top-error grouping key
`format!("{error_type}|{status_code.unwrap_or_default()}|{error_message.unwrap_or_default()}")`
from the source, as its character list. -/
def errorKey (error_type : String) (status_code : Option ℕ)
    (error_message : Option String) : List Char :=
  error_type.data ++ '|' :: (natKey (status_code.getD 0) ++ '|' :: (error_message.getD "").data)

/-- The entry created for a first-seen error key: the source inserts a
zero-count entry via `or_insert_with` and immediately bumps it to 1; the
body-fill on a fresh entry is a no-op since the body is taken verbatim. -/
def newErrorEntry (s : SampleResult) (ty : String) : BenchmarkErrorSample :=
  { error_type := ty
    status_code := s.status_code
    message := s.error_message.getD "Unknown benchmark error"
    count := 1
    sample_body := s.sample_body }

/-- The update applied to an existing entry: `entry.count += 1` and the
first-seen-wins body fill. -/
def bumpEntry (e : BenchmarkErrorSample) (s : SampleResult) : BenchmarkErrorSample :=
  { e with
    count := e.count + 1
    sample_body := if e.sample_body.isNone then s.sample_body else e.sample_body }

/-- One `top_error_map` update: bump the entry at `key` (filling a missing
captured body, first seen wins) or append a fresh entry.  The `HashMap` is
modelled as an association list in first-insertion order; every property
proved below is independent of entry order. -/
def updateTopError : List (List Char × BenchmarkErrorSample) → List Char →
    SampleResult → String → List (List Char × BenchmarkErrorSample)
  | [], key, s, ty => [(key, newErrorEntry s ty)]
  | (k, e) :: rest, key, s, ty =>
    if k = key then (k, bumpEntry e s) :: rest
    else (k, e) :: updateTopError rest key s ty

/-- Per-second accumulation bucket, mirroring `SeriesBucket` (the latencies
`Vec` is kept as a multiset: it is sorted before any use). -/
structure SeriesBucket where
  success : ℕ
  error : ℕ
  latencies : Multiset ℚ
  bytes_in : ℕ
  bytes_out : ℕ
deriving DecidableEq

/-- `SeriesBucket::default()`. -/
def SeriesBucket.empty : SeriesBucket := ⟨0, 0, 0, 0, 0⟩

/-- The per-sample bucket update from the aggregation loop. -/
def SeriesBucket.add (b : SeriesBucket) (s : SampleResult) : SeriesBucket :=
  { success := if s.success then b.success + 1 else b.success
    error := if s.success then b.error else b.error + 1
    latencies := s.latency_ms ::ₘ b.latencies
    bytes_in := b.bytes_in + s.bytes_in
    bytes_out := b.bytes_out + s.bytes_out }

/-- The full accumulator threaded through the aggregation loop of
`aggregate_samples`.  The `BTreeMap` time series is a total function plus
the finite set of keys that are present; counter maps default to zero. -/
structure AggState where
  total_requests : ℕ
  success_count : ℕ
  error_count : ℕ
  bytes_in : ℕ
  bytes_out : ℕ
  status_code_counts : ℕ → ℕ
  error_type_counts : String → ℕ
  top_error_map : List (List Char × BenchmarkErrorSample)
  stats : RunningStats
  hdr : Multiset ℕ
  histogram_counts : ℕ → ℕ
  series_keys : Finset ℕ
  series : ℕ → SeriesBucket

/-- The accumulator at the top of the loop. -/
def aggInit : AggState :=
  ⟨0, 0, 0, 0, 0, fun _ => 0, fun _ => 0, [], RunningStats.init, 0, fun _ => 0,
    ∅, fun _ => SeriesBucket.empty⟩

/-- One iteration of the aggregation loop (source lines 668–734). -/
def aggStep (st : AggState) (sample : SampleResult) : AggState :=
  if sample.cancelled then st
  else
    let st :=
      { st with
        total_requests := st.total_requests + 1
        bytes_in := st.bytes_in + sample.bytes_in
        bytes_out := st.bytes_out + sample.bytes_out
        success_count := if sample.success then st.success_count + 1 else st.success_count
        error_count := if sample.success then st.error_count else st.error_count + 1 }
    let st :=
      match sample.status_code with
      | none => st
      | some status =>
        { st with status_code_counts := fun k =>
            if k = status then st.status_code_counts k + 1 else st.status_code_counts k }
    let st :=
      match sample.error_type with
      | none => st
      | some ty =>
        { st with
          error_type_counts := fun k =>
            if k = ty then st.error_type_counts k + 1 else st.error_type_counts k
          top_error_map :=
            updateTopError st.top_error_map
              (errorKey ty sample.status_code sample.error_message) sample ty }
    let bucket_ts := sample.timestamp_ms / 1000 * 1000
    { st with
      stats := st.stats.add sample.latency_ms
      hdr := hdrRecordValue sample.latency_ms ::ₘ st.hdr
      histogram_counts := fun i =>
        if i = histogram_bucket_index sample.latency_ms then st.histogram_counts i + 1
        else st.histogram_counts i
      series_keys := insert bucket_ts st.series_keys
      series := fun t => if t = bucket_ts then (st.series t).add sample else st.series t }

/-- The accumulator components that feed every output except `top_errors`
(the `HashMap` iteration order behind `top_errors` is the one
order-sensitive part of the source). -/
structure AggMain where
  total_requests : ℕ
  success_count : ℕ
  error_count : ℕ
  bytes_in : ℕ
  bytes_out : ℕ
  status_code_counts : ℕ → ℕ
  error_type_counts : String → ℕ
  stats : RunningStats
  hdr : Multiset ℕ
  histogram_counts : ℕ → ℕ
  series_keys : Finset ℕ
  series : ℕ → SeriesBucket

/-- Forget the top-error map. -/
def AggState.main (st : AggState) : AggMain :=
  ⟨st.total_requests, st.success_count, st.error_count, st.bytes_in, st.bytes_out,
    st.status_code_counts, st.error_type_counts, st.stats, st.hdr,
    st.histogram_counts, st.series_keys, st.series⟩

/-- `aggStep` restricted to the components of `AggMain`. -/
def aggMainStep (st : AggMain) (sample : SampleResult) : AggMain :=
  if sample.cancelled then st
  else
    let st :=
      { st with
        total_requests := st.total_requests + 1
        bytes_in := st.bytes_in + sample.bytes_in
        bytes_out := st.bytes_out + sample.bytes_out
        success_count := if sample.success then st.success_count + 1 else st.success_count
        error_count := if sample.success then st.error_count else st.error_count + 1 }
    let st :=
      match sample.status_code with
      | none => st
      | some status =>
        { st with status_code_counts := fun k =>
            if k = status then st.status_code_counts k + 1 else st.status_code_counts k }
    let st :=
      match sample.error_type with
      | none => st
      | some ty =>
        { st with error_type_counts := fun k =>
            if k = ty then st.error_type_counts k + 1 else st.error_type_counts k }
    let bucket_ts := sample.timestamp_ms / 1000 * 1000
    { st with
      stats := st.stats.add sample.latency_ms
      hdr := hdrRecordValue sample.latency_ms ::ₘ st.hdr
      histogram_counts := fun i =>
        if i = histogram_bucket_index sample.latency_ms then st.histogram_counts i + 1
        else st.histogram_counts i
      series_keys := insert bucket_ts st.series_keys
      series := fun t => if t = bucket_ts then (st.series t).add sample else st.series t }

/-- Summary assembly after the loop (source lines 736–760).  When no
non-cancelled sample was seen, the rate/latency block keeps its defaults. -/
def mkSummary (st : AggMain) (started_at_ms finished_at_ms : ℕ) : BenchmarkSummaryMetrics :=
  let base : BenchmarkSummaryMetrics :=
    { BenchmarkSummaryMetrics.zero with
      total_requests := st.total_requests
      success_count := st.success_count
      error_count := st.error_count
      bytes_in := st.bytes_in
      bytes_out := st.bytes_out
      status_code_counts := st.status_code_counts
      error_type_counts := st.error_type_counts }
  if st.total_requests = 0 then base
  else
    let elapsed_secs : ℚ := max (((finished_at_ms - started_at_ms : ℕ) : ℚ) / 1000) (1 / 1000)
    let peak_rps : ℕ := st.series_keys.sup fun t => (st.series t).success + (st.series t).error
    { base with
      error_rate := round_to_3 ((st.error_count : ℚ) / (st.total_requests : ℚ) * 100)
      rps_avg := round_to_3 ((st.total_requests : ℚ) / elapsed_secs)
      rps_peak := round_to_3 (peak_rps : ℚ)
      latency :=
        { min_ms := round_to_3 st.stats.min
          avg_ms := round_to_3 st.stats.mean
          max_ms := round_to_3 st.stats.max
          stddev_sq_ms := st.stats.variance
          p50_ms := round_to_3 ((hdrValueAtQuantile st.hdr (1/2) : ℚ) / 1000)
          p90_ms := round_to_3 ((hdrValueAtQuantile st.hdr (9/10) : ℚ) / 1000)
          p95_ms := round_to_3 ((hdrValueAtQuantile st.hdr (19/20) : ℚ) / 1000)
          p99_ms := round_to_3 ((hdrValueAtQuantile st.hdr (99/100) : ℚ) / 1000) } }

/-- Time-series assembly: buckets in ascending timestamp order, each with
its own sorted-latency p95 and mean (source lines 762–780). -/
def mkTimeseries (st : AggMain) : List BenchmarkTimeseriesPoint :=
  (st.series_keys.sort (· ≤ ·)).map fun t =>
    let b := st.series t
    let sorted := b.latencies.sort (· ≤ ·)
    let latency_avg : ℚ := if sorted.isEmpty then 0 else sorted.sum / (sorted.length : ℚ)
    { bucket_ts_ms := t
      rps_success := b.success
      rps_error := b.error
      latency_p95_ms := round_to_3 (percentile sorted 95)
      latency_avg_ms := round_to_3 latency_avg
      bytes_in := b.bytes_in
      bytes_out := b.bytes_out }

/-- Display-histogram assembly: non-zero buckets only (lines 782–793). -/
def mkHistogram (counts : ℕ → ℕ) : List BenchmarkHistogramBucket :=
  (List.range (HISTOGRAM_EDGES_MS.length - 1)).filterMap fun idx =>
    if counts idx = 0 then none
    else
      some
        { lower_bound_ms := HISTOGRAM_EDGES_MS.getD idx 0
          upper_bound_ms := HISTOGRAM_EDGES_MS.getD (idx + 1) 0
          count := counts idx }

/-- The sort order of `top_errors` (lines 796–801): count descending, ties
by error-type name ascending. -/
def topErrorLE (a b : BenchmarkErrorSample) : Prop :=
  b.count < a.count ∨ (a.count = b.count ∧ a.error_type ≤ b.error_type)

instance : DecidableRel topErrorLE :=
  fun a b =>
    inferInstanceAs (Decidable (b.count < a.count ∨ a.count = b.count ∧ a.error_type ≤ b.error_type))

instance : IsTotal BenchmarkErrorSample topErrorLE :=
  ⟨fun a b => by
    unfold topErrorLE
    rcases Nat.lt_trichotomy a.count b.count with h | h | h
    · exact Or.inr (Or.inl h)
    · rcases le_total a.error_type b.error_type with hs | hs
      · exact Or.inl (Or.inr ⟨h, hs⟩)
      · exact Or.inr (Or.inr ⟨h.symm, hs⟩)
    · exact Or.inl (Or.inl h)⟩

instance : IsTrans BenchmarkErrorSample topErrorLE :=
  ⟨fun a b c hab hbc => by
    unfold topErrorLE at *
    rcases hab with h1 | ⟨h1, h1s⟩ <;> rcases hbc with h2 | ⟨h2, h2s⟩
    · exact Or.inl (h2.trans h1)
    · exact Or.inl (h2 ▸ h1)
    · exact Or.inl (h1.symm ▸ h2)
    · exact Or.inr ⟨h1.trans h2, h1s.trans h2s⟩⟩

/-- Top-error assembly: sort the grouped entries, truncate to
`top_k_errors.max(1)` (lines 795–802).  The Rust `sort_by` is replaced by
an insertion sort over the same comparator — the ordering facts proved
below hold for any sorting algorithm. -/
def mkTopErrors (m : List (List Char × BenchmarkErrorSample)) (top_k_errors : ℕ) :
    List BenchmarkErrorSample :=
  ((m.map Prod.snd).insertionSort topErrorLE).take (Nat.max top_k_errors 1)

/-- `aggregate_samples` (source lines 654–810).  The only failure in the
source is the infallible-in-practice allocation of the HDR histogram, so the
model is total. -/
def aggregate_samples (samples : List SampleResult)
    (started_at_ms finished_at_ms : ℕ) (top_k_errors : ℕ) : BenchmarkAggregatedMetrics :=
  let st := samples.foldl aggStep aggInit
  { summary := mkSummary st.main started_at_ms finished_at_ms
    timeseries := mkTimeseries st.main
    histogram := mkHistogram st.main.histogram_counts
    top_errors := mkTopErrors st.top_error_map top_k_errors }

/-! ### Spec validation and the run orchestrator -/

/-- `BenchmarkLoadMode`. -/
inductive BenchmarkLoadMode
  | FixedIterations
  | FixedDuration
deriving DecidableEq, Repr

/-- `BenchmarkLoadConfig`. -/
structure BenchmarkLoadConfig where
  mode : BenchmarkLoadMode
  iterations : Option ℕ
  duration_ms : Option ℕ
  concurrency : ℕ
deriving DecidableEq, Repr

/-- `BenchmarkTimingConfig`. -/
structure BenchmarkTimingConfig where
  timeout_ms : ℕ
  warmup_duration_ms : Option ℕ
  warmup_iterations : Option ℕ
deriving DecidableEq, Repr

/-- `BenchmarkSaveBodies`. -/
inductive BenchmarkSaveBodies
  | None
  | Errors
deriving DecidableEq, Repr

/-- `BenchmarkLoggingConfig`. -/
structure BenchmarkLoggingConfig where
  sample_errors_top_k : ℕ
  save_bodies : BenchmarkSaveBodies
deriving DecidableEq, Repr

/-- The parts of `BenchmarkSpecPayload` the engine's control flow reads.
The `target`, `transport` and `env` blocks only parameterize the HTTP
client and request template, which the model treats as external I/O. -/
structure BenchmarkSpecPayload where
  load : BenchmarkLoadConfig
  timing : BenchmarkTimingConfig
  logging : BenchmarkLoggingConfig
deriving DecidableEq, Repr

/-- `PhaseWorkload`. -/
inductive PhaseWorkload
  | Iterations (n : ℕ)
  | DurationMs (d : ℕ)
deriving DecidableEq, Repr

/-- `measurement_workload` (source lines 235–252). -/
def measurement_workload (spec : BenchmarkSpecPayload) : Except String PhaseWorkload :=
  match spec.load.mode with
  | .FixedIterations =>
    if spec.load.iterations.getD 0 = 0 then
      .error "Benchmark fixed_iterations mode requires iterations > 0"
    else .ok (.Iterations (spec.load.iterations.getD 0))
  | .FixedDuration =>
    if spec.load.duration_ms.getD 0 = 0 then
      .error "Benchmark fixed_duration mode requires durationMs > 0"
    else .ok (.DurationMs (spec.load.duration_ms.getD 0))

/-- `validate_spec` (source lines 210–219). -/
def validate_spec (spec : BenchmarkSpecPayload) : Except String Unit :=
  if spec.load.concurrency = 0 then .error "Benchmark concurrency must be greater than 0"
  else if spec.timing.timeout_ms = 0 then .error "Benchmark timeoutMs must be greater than 0"
  else
    match measurement_workload spec with
    | .error e => .error e
    | .ok _ => .ok ()

/-- `warmup_workload` (source lines 221–233): iterations win over duration. -/
def warmup_workload (spec : BenchmarkSpecPayload) : Option PhaseWorkload :=
  if spec.timing.warmup_iterations.getD 0 > 0 then
    some (.Iterations (spec.timing.warmup_iterations.getD 0))
  else if spec.timing.warmup_duration_ms.getD 0 > 0 then
    some (.DurationMs (spec.timing.warmup_duration_ms.getD 0))
  else none

/-- What one `run_phase` call produced, mirroring `PhaseResult`. -/
structure PhaseOutcome where
  samples : List SampleResult
  cancelled : Bool
  started_at_ms : ℕ
  finished_at_ms : ℕ

/-- `BenchmarkExecutionResult`. -/
structure BenchmarkExecutionResult where
  metrics : BenchmarkAggregatedMetrics
  cancelled : Bool

/-- `execute_benchmark` (source lines 158–208) with the network-facing
`run_phase` abstracted into an oracle from (workload, collect-samples flag)
to a phase outcome.  The returned list records, in order, the phases the
orchestrator actually ran — `(w, false)` a warmup, `(w, true)` the
measurement phase.  Client/template construction is I/O and is not a
modelled failure mode. -/
def execute_benchmark (spec : BenchmarkSpecPayload)
    (runPhase : PhaseWorkload → Bool → PhaseOutcome) :
    Except String (BenchmarkExecutionResult × List (PhaseWorkload × Bool)) :=
  match validate_spec spec with
  | .error e => .error e
  | .ok _ =>
    match warmup_workload spec with
    | some w =>
      let warmup := runPhase w false
      if warmup.cancelled then
        .ok ({ metrics := BenchmarkAggregatedMetrics.zero, cancelled := true }, [(w, false)])
      else
        match measurement_workload spec with
        | .error e => .error e
        | .ok workload =>
          let measurement := runPhase workload true
          .ok
            ({ metrics := aggregate_samples measurement.samples measurement.started_at_ms
                  measurement.finished_at_ms (Nat.max spec.logging.sample_errors_top_k 1)
               cancelled := measurement.cancelled }, [(w, false), (workload, true)])
    | none =>
      match measurement_workload spec with
      | .error e => .error e
      | .ok workload =>
        let measurement := runPhase workload true
        .ok
          ({ metrics := aggregate_samples measurement.samples measurement.started_at_ms
                measurement.finished_at_ms (Nat.max spec.logging.sample_errors_top_k 1)
             cancelled := measurement.cancelled }, [(workload, true)])

/-! ### Worker loop as a trace machine

`run_phase` (source lines 530–629) spawns workers that share an atomic
cancel flag and, for iteration workloads, an atomic `fetch_add` counter.
A schedule interleaves the workers' atomic steps: each event names the
worker taking its pre-iteration turn together with what its broadcast
receiver's `try_recv` would return at that instant.  An active worker first
runs the cancellation check (lines 571–574); only if that passes does it
draw a ticket and, when the drawn value is below the target, issue a
request (lines 576–594). -/

/-- The `try_recv` outcomes distinguished by `cancel_requested`. -/
inductive RecvState
  | received
  | lagged
  | closed
  | empty
deriving DecidableEq, Repr

/-- `cancel_requested` (source lines 519–528): anything but an empty, still
open channel counts as cancellation. -/
def cancel_requested : RecvState → Bool
  | .received => true
  | .lagged => true
  | .closed => true
  | .empty => false

/-- Cross-worker shared state of one iteration-bounded phase: the atomic
counter, the shared cancelled flag, which workers have exited their loop,
and how many requests were issued. -/
structure WorkerPhaseState where
  counter : ℕ
  flag : Bool
  stopped : ℕ → Bool
  issued : ℕ

/-- Phase start: counter 0, flag clear, everyone active. -/
def workerPhaseInit : WorkerPhaseState := ⟨0, false, fun _ => false, 0⟩

/-- One scheduled pre-iteration turn of worker `ev.1` whose receiver would
return `ev.2`. -/
def workerStep (target : ℕ) (st : WorkerPhaseState) (ev : ℕ × RecvState) :
    WorkerPhaseState :=
  if st.stopped ev.1 then st
  else if st.flag || cancel_requested ev.2 then
    { st with
      flag := true
      stopped := fun w => if w = ev.1 then true else st.stopped w }
  else
    let idx := st.counter
    if target ≤ idx then
      { st with
        counter := idx + 1
        stopped := fun w => if w = ev.1 then true else st.stopped w }
    else
      { st with
        counter := idx + 1
        issued := st.issued + 1 }

/-- Run a whole schedule of worker turns from phase start. -/
def runPhaseTrace (target : ℕ) (sched : List (ℕ × RecvState)) : WorkerPhaseState :=
  sched.foldl (workerStep target) workerPhaseInit

/-- The registry's map, reduced to which run ids still have a live sender
and which have a pending broadcast (`BenchmarkRegistry`, source lines
22–51). -/
structure RegistryState where
  senders : Finset String
  fired : Finset String

/-- `BenchmarkRegistry::remove` (lines 48–50): drop the sender without
firing. -/
def RegistryState.remove (r : RegistryState) (id : String) : RegistryState :=
  { r with senders := r.senders.erase id }

/-- `BenchmarkRegistry::cancel` (lines 40–46): drop the sender and fire the
channel, reporting whether the run was present. -/
def RegistryState.cancel (r : RegistryState) (id : String) : RegistryState × Bool :=
  if id ∈ r.senders then ({ senders := r.senders.erase id, fired := insert id r.fired }, true)
  else (r, false)

/-- Modelled from the spec: the broadcast receiver contract (`tokio`
library code, outside this repository) — a pending signal is received;
otherwise an open channel reads empty and a channel whose sender was
dropped reads closed. -/
def receiverState (r : RegistryState) (id : String) : RecvState :=
  if id ∈ r.fired then .received
  else if id ∈ r.senders then .empty
  else .closed

/-- A spec rejected by validation (iterations absent in fixed-iterations
mode), used to witness C6. -/
def invalidSpecDemo : BenchmarkSpecPayload :=
  { load := { mode := .FixedIterations, iterations := none, duration_ms := some 1000,
              concurrency := 4 }
    timing := { timeout_ms := 1000, warmup_duration_ms := none, warmup_iterations := none }
    logging := { sample_errors_top_k := 10, save_bodies := .None } }

/-- A phase oracle that immediately reports a cancelled, empty phase. -/
def cancelledPhaseOracle : PhaseWorkload → Bool → PhaseOutcome :=
  fun _ _ => ⟨[], true, 0, 0⟩

/-- A phase oracle that reports an uneventful completed phase. -/
def quietPhaseOracle : PhaseWorkload → Bool → PhaseOutcome :=
  fun _ _ => ⟨[], false, 0, 1000⟩

/-- A valid spec with both warmup iterations and warmup duration set, used
to witness C9. -/
def warmupSpecDemo : BenchmarkSpecPayload :=
  { load := { mode := .FixedIterations, iterations := some 10, duration_ms := none,
              concurrency := 2 }
    timing := { timeout_ms := 500, warmup_duration_ms := some 300, warmup_iterations := some 3 }
    logging := { sample_errors_top_k := 5, save_bodies := .Errors } }

/-- The loop's view of the top-error map alone. -/
def topStep (acc : List (List Char × BenchmarkErrorSample)) (x : SampleResult) :
    List (List Char × BenchmarkErrorSample) :=
  if x.cancelled then acc
  else
    match x.error_type with
    | none => acc
    | some ty => updateTopError acc (errorKey ty x.status_code x.error_message) x ty

/-- The non-top accumulator reached from the start of the loop. -/
def aggMainOf (samples : List SampleResult) : AggMain :=
  samples.foldl aggMainStep aggInit.main

/-- The counting invariants of the aggregation loop: totals split into
successes and errors, the percentile histogram holds one record per counted
sample, the display-histogram counters sum to the total. -/
def aggInv (st : AggMain) : Prop :=
  st.total_requests = st.success_count + st.error_count ∧
  Multiset.card st.hdr = st.total_requests ∧
  (Finset.range 17).sum st.histogram_counts = st.total_requests

/-- A mixed demo sample list: three successes, one 503, two timeouts and a
cancelled sample, used by the concrete witnesses below. -/
def demoSamples : List SampleResult :=
  [⟨1000, 10, some 200, true, none, none, 100, 50, none, false⟩,
   ⟨1100, 40, some 200, true, none, none, 100, 50, none, false⟩,
   ⟨2000, 15, some 503, false, some "HTTP_STATUS_5XX", some "HTTP 503", 80, 50, none, false⟩,
   ⟨2100, 30, none, false, some "TIMEOUT", some "operation timed out", 0, 50, none, false⟩,
   ⟨2200, 31, none, false, some "TIMEOUT", some "operation timed out", 0, 50, none, false⟩,
   ⟨1600, 20, some 200, true, none, none, 100, 50, none, false⟩,
   ⟨2500, 5, none, false, some "CANCELED", some "Benchmark cancelled", 0, 50, none, true⟩]

attribute [ext] RunningStats SeriesBucket AggMain

/-- The status-code counter update of one sample. -/
def updStatusCounts (f : ℕ → ℕ) (x : SampleResult) : ℕ → ℕ :=
  match x.status_code with
  | none => f
  | some status => fun k => if k = status then f k + 1 else f k

/-- The error-type counter update of one sample. -/
def updErrorTypeCounts (f : String → ℕ) (x : SampleResult) : String → ℕ :=
  match x.error_type with
  | none => f
  | some ty => fun k => if k = ty then f k + 1 else f k

/-- The key a sample contributes to the top-error map, when it is counted
as an error. -/
def sampleErrorKey (x : SampleResult) : Option (List Char) :=
  if x.cancelled then none
  else x.error_type.map fun ty => errorKey ty x.status_code x.error_message

/-- All top-error keys of a sample list, with multiplicity. -/
def errorKeys (l : List SampleResult) : List (List Char) :=
  l.filterMap sampleErrorKey

/-- The grouping triple of a counted error sample, with the defaults the
source's key format applies (`status_code.unwrap_or_default()`,
`error_message.unwrap_or_default()`). -/
def sampleErrorTriple (x : SampleResult) : Option (String × ℕ × String) :=
  if x.cancelled then none
  else x.error_type.map fun ty => (ty, x.status_code.getD 0, x.error_message.getD "")

/-- All grouping triples of a sample list, with multiplicity. -/
def errorTriples (l : List SampleResult) : List (String × ℕ × String) :=
  l.filterMap sampleErrorTriple

/-- The key of a triple. -/
def keyOfTriple (t : String × ℕ × String) : List Char :=
  t.1.data ++ '|' :: (natKey t.2.1 ++ '|' :: t.2.2.data)

/-- The value of a digit character. -/
def digitVal (c : Char) : ℕ := c.toNat - 48

/-- Reading a digit list back as a number. -/
def digitsVal (l : List Char) : ℕ := l.foldl (fun acc c => acc * 10 + digitVal c) 0

instance : Inhabited BenchmarkErrorSample := ⟨⟨"", none, "", 0, none⟩⟩

/-- The invariant tying the top-error accumulator to the processed
samples: keys are distinct, they are exactly the keys of the processed
error samples, each entry's count is that key's multiplicity, and each
entry carries the identity fields of the first sample of its group. -/
def TopInv (ps : List SampleResult)
    (acc : List (List Char × BenchmarkErrorSample)) : Prop :=
  (acc.map Prod.fst).Nodup ∧
  (∀ kk, kk ∈ acc.map Prod.fst ↔ kk ∈ errorKeys ps) ∧
  ∀ p ∈ acc, p.2.count = (errorKeys ps).count p.1 ∧
    ∃ x ∈ ps, x.cancelled = false ∧ x.error_type = some p.2.error_type ∧
      x.status_code = p.2.status_code ∧
      p.2.message = x.error_message.getD "Unknown benchmark error" ∧
      p.1 = errorKey p.2.error_type x.status_code x.error_message

/-! ### C6: spec validation -/

/-- C6.  `validate_spec` fails exactly when concurrency is 0, the timeout is
0, or the selected load mode's bound is missing or zero; and when it fails,
`execute_benchmark` never consults the phase runner (its result does not
depend on the phase oracle), i.e. validation fails before any request is
sent. -/
theorem validate_spec_rejects_iff (spec : BenchmarkSpecPayload) :
    (validate_spec spec = Except.ok () ↔
      ¬(spec.load.concurrency = 0 ∨ spec.timing.timeout_ms = 0 ∨
        (spec.load.mode = BenchmarkLoadMode.FixedIterations ∧
          spec.load.iterations.getD 0 = 0) ∨
        (spec.load.mode = BenchmarkLoadMode.FixedDuration ∧
          spec.load.duration_ms.getD 0 = 0))) ∧
    (validate_spec spec ≠ Except.ok () →
      ∀ f g, execute_benchmark spec f = execute_benchmark spec g) := by
  constructor
  · unfold validate_spec measurement_workload
    cases hm : spec.load.mode <;> split_ifs <;> simp_all
  · intro h f g
    cases hv : validate_spec spec with
    | ok u => cases u; exact absurd hv h
    | error e => simp [execute_benchmark, hv]

/-- Witness for C6 at a concrete rejected spec: the run result is oracle
independent, so no phase ran. -/
theorem validate_spec_rejects_iff_witness :
    execute_benchmark invalidSpecDemo cancelledPhaseOracle =
      execute_benchmark invalidSpecDemo quietPhaseOracle :=
  (validate_spec_rejects_iff invalidSpecDemo).2
    (by simp [validate_spec, measurement_workload, invalidSpecDemo])
    cancelledPhaseOracle quietPhaseOracle

/-! ### C9: cancelled warmup short-circuits the run -/

/-- C9.  For a valid spec with a configured warmup workload whose phase is
cancelled, `execute_benchmark` returns the all-zero default metrics with
`cancelled := true`, and the list of executed phases is just the warmup —
no measurement phase (`collect_samples = true`) ever runs.  Moreover the
warmup workload is the iteration bound whenever warmup iterations are
nonzero, i.e. iterations take priority over a configured duration. -/
theorem execute_benchmark_warmup_cancelled (spec : BenchmarkSpecPayload)
    (runPhase : PhaseWorkload → Bool → PhaseOutcome) (w : PhaseWorkload)
    (hvalid : validate_spec spec = Except.ok ())
    (hw : warmup_workload spec = some w)
    (hcancel : (runPhase w false).cancelled = true) :
    execute_benchmark spec runPhase =
      Except.ok ({ metrics := BenchmarkAggregatedMetrics.zero, cancelled := true },
        [(w, false)]) ∧
    (0 < spec.timing.warmup_iterations.getD 0 →
      w = PhaseWorkload.Iterations (spec.timing.warmup_iterations.getD 0)) := by
  constructor
  · simp [execute_benchmark, hvalid, hw, hcancel]
  · intro hi
    unfold warmup_workload at hw
    rw [if_pos hi] at hw
    exact (Option.some_injective _ hw).symm

/-- Witness for C9: with every hypothesis discharged at `warmupSpecDemo`
and a cancelling phase oracle, the run returns empty metrics, a cancelled
flag, only the warmup phase — and the warmup bound is the 3 iterations,
not the 300 ms duration. -/
theorem execute_benchmark_warmup_cancelled_witness :
    execute_benchmark warmupSpecDemo cancelledPhaseOracle =
      Except.ok ({ metrics := BenchmarkAggregatedMetrics.zero, cancelled := true },
        [(PhaseWorkload.Iterations 3, false)]) ∧
    (0 < warmupSpecDemo.timing.warmup_iterations.getD 0 →
      PhaseWorkload.Iterations 3 =
        PhaseWorkload.Iterations (warmupSpecDemo.timing.warmup_iterations.getD 0)) :=
  execute_benchmark_warmup_cancelled warmupSpecDemo cancelledPhaseOracle
    (PhaseWorkload.Iterations 3) (by rfl) (by rfl) (by rfl)

/-! ### C7: the atomic iteration counter never over-issues -/

/-- A step keeps the invariant `issued ≤ min counter target`. -/
theorem workerStep_issued_inv (target : ℕ) (st : WorkerPhaseState) (ev : ℕ × RecvState)
    (h : st.issued ≤ min st.counter target) :
    (workerStep target st ev).issued ≤ min (workerStep target st ev).counter target := by
  unfold workerStep
  split
  · exact h
  · split
    · exact h
    · dsimp only
      split <;> simp <;> omega

/-- Folding any schedule preserves the issue-count invariant. -/
theorem runPhase_issued_inv (target : ℕ) (sched : List (ℕ × RecvState)) :
    ∀ st : WorkerPhaseState, st.issued ≤ min st.counter target →
      (sched.foldl (workerStep target) st).issued ≤
        min (sched.foldl (workerStep target) st).counter target := by
  induction sched with
  | nil => intro st h; exact h
  | cons ev rest ih =>
    intro st h
    exact ih _ (workerStep_issued_inv target st ev h)

/-- C7.  In an iteration-bounded phase, for every number of workers and
every interleaving of their atomic turns, the number of issued requests
never exceeds the configured target; and a turn issues a request only if
the counter value it would draw is below the target. -/
theorem runPhaseTrace_issued_le_target (target : ℕ) (sched : List (ℕ × RecvState)) :
    (runPhaseTrace target sched).issued ≤ target ∧
    (∀ (st : WorkerPhaseState) (ev : ℕ × RecvState),
      (workerStep target st ev).issued ≠ st.issued → st.counter < target) := by
  constructor
  · have h := runPhase_issued_inv target sched workerPhaseInit (by simp [workerPhaseInit])
    exact le_trans h (min_le_right _ _)
  · intro st ev h
    by_contra hc
    apply h
    unfold workerStep
    split
    · rfl
    · split
      · rfl
      · dsimp only
        split
        · rfl
        · omega

/-- Witness for C7: a concrete two-worker schedule with more turns than the
target of 2 issues at most 2 requests, and the first turn (which does issue
a request) drew counter value 0, below the target. -/
theorem runPhaseTrace_issued_le_target_witness :
    (runPhaseTrace 2 [(0, .empty), (1, .empty), (0, .empty), (1, .empty)]).issued ≤ 2 ∧
    workerPhaseInit.counter < 2 :=
  ⟨(runPhaseTrace_issued_le_target 2 [(0, .empty), (1, .empty), (0, .empty), (1, .empty)]).1,
   (runPhaseTrace_issued_le_target 2 []).2 workerPhaseInit (0, .empty) (by decide)⟩

/-! ### C10: closed or lagged receivers count as cancellation -/

/-- A stopped worker stays stopped through any turn. -/
theorem workerStep_stopped_mono (target : ℕ) (st : WorkerPhaseState) (ev : ℕ × RecvState)
    (w : ℕ) (h : st.stopped w = true) : (workerStep target st ev).stopped w = true := by
  unfold workerStep
  split
  · exact h
  · split
    · by_cases hw : w = ev.1 <;> simp [hw, h]
    · dsimp only
      split
      · by_cases hw : w = ev.1 <;> simp [hw, h]
      · exact h

/-- The shared cancelled flag is never cleared. -/
theorem workerStep_flag_mono (target : ℕ) (st : WorkerPhaseState) (ev : ℕ × RecvState)
    (h : st.flag = true) : (workerStep target st ev).flag = true := by
  unfold workerStep
  split
  · exact h
  · split
    · rfl
    · dsimp only
      split <;> exact h

/-- An active worker whose receiver reads anything but empty stops at its
check and raises the shared flag, without drawing or issuing. -/
theorem workerStep_nonempty (target : ℕ) (st : WorkerPhaseState) (ev : ℕ × RecvState)
    (hne : ev.2 ≠ RecvState.empty) (hact : st.stopped ev.1 = false) :
    workerStep target st ev =
      { st with
        flag := true
        stopped := fun w => if w = ev.1 then true else st.stopped w } := by
  have hcr : cancel_requested ev.2 = true := by
    cases h2 : ev.2 <;> simp [cancel_requested]
    exact hne h2
  simp [workerStep, hact, hcr]

/-- Any turn with a non-empty receiver outcome stops its worker. -/
theorem workerStep_nonempty_stops (target : ℕ) (st : WorkerPhaseState)
    (ev : ℕ × RecvState) (hne : ev.2 ≠ RecvState.empty) :
    (workerStep target st ev).stopped ev.1 = true := by
  cases hb : st.stopped ev.1
  · rw [workerStep_nonempty target st ev hne hb]
    simp
  · exact workerStep_stopped_mono target st ev ev.1 hb

/-- Any turn with a non-empty receiver outcome issues no request. -/
theorem workerStep_nonempty_issued (target : ℕ) (st : WorkerPhaseState)
    (ev : ℕ × RecvState) (hne : ev.2 ≠ RecvState.empty) :
    (workerStep target st ev).issued = st.issued := by
  cases hb : st.stopped ev.1
  · rw [workerStep_nonempty target st ev hne hb]
  · simp [workerStep, hb]

/-- Stopped workers stay stopped through a whole schedule. -/
theorem foldl_stopped_mono (target : ℕ) (sched : List (ℕ × RecvState)) :
    ∀ (st : WorkerPhaseState) (w : ℕ), st.stopped w = true →
      (sched.foldl (workerStep target) st).stopped w = true := by
  induction sched with
  | nil => intro st w h; exact h
  | cons ev rest ih =>
    intro st w h
    exact ih _ w (workerStep_stopped_mono target st ev w h)

/-- The raised flag survives a whole schedule. -/
theorem foldl_flag_mono (target : ℕ) (sched : List (ℕ × RecvState)) :
    ∀ st : WorkerPhaseState, st.flag = true →
      (sched.foldl (workerStep target) st).flag = true := by
  induction sched with
  | nil => intro st h; exact h
  | cons ev rest ih =>
    intro st h
    exact ih _ (workerStep_flag_mono target st ev h)

/-- With every receiver outcome non-empty, a schedule issues nothing and
stops every scheduled worker, from any starting state. -/
theorem foldl_nonempty_aux (target : ℕ) (sched : List (ℕ × RecvState))
    (hne : ∀ ev ∈ sched, ev.2 ≠ RecvState.empty) :
    ∀ st : WorkerPhaseState,
      (sched.foldl (workerStep target) st).issued = st.issued ∧
      ∀ ev ∈ sched, (sched.foldl (workerStep target) st).stopped ev.1 = true := by
  induction sched with
  | nil => intro st; exact ⟨rfl, by intro ev h; cases h⟩
  | cons e rest ih =>
    intro st
    have hef : e.2 ≠ RecvState.empty := hne e (List.mem_cons_self e rest)
    have hrest : ∀ ev ∈ rest, ev.2 ≠ RecvState.empty := fun ev h => hne ev (List.mem_cons_of_mem e h)
    have hih := ih hrest (workerStep target st e)
    refine ⟨?_, ?_⟩
    · rw [List.foldl_cons, hih.1, workerStep_nonempty_issued target st e hef]
    · intro ev hev
      rcases List.mem_cons.mp hev with hcase | hcase
      · subst hcase
        exact foldl_stopped_mono target rest _ ev.1 (workerStep_nonempty_stops target st ev hef)
      · exact hih.2 ev hcase

/-- C10.  The worker-side cancellation check treats a closed channel (all
senders dropped, e.g. via `BenchmarkRegistry::remove`, which removes the
sender without firing) and a lagged receiver exactly like a received
signal; consequently, on any schedule in which every pre-iteration check
sees a non-empty receiver, no request is issued, every scheduled worker
stops, and the phase's shared cancelled flag — the value `run_phase`
reports as `PhaseResult.cancelled` — is raised as soon as any turn ran. -/
theorem cancel_requested_closed_lagged (target : ℕ) (sched : List (ℕ × RecvState))
    (hne : ∀ ev ∈ sched, ev.2 ≠ RecvState.empty) :
    cancel_requested RecvState.closed = cancel_requested RecvState.received ∧
    cancel_requested RecvState.lagged = cancel_requested RecvState.received ∧
    (∀ (r : RegistryState) (id : String), id ∉ r.fired →
      receiverState (r.remove id) id = RecvState.closed) ∧
    (runPhaseTrace target sched).issued = 0 ∧
    (∀ ev ∈ sched, (runPhaseTrace target sched).stopped ev.1 = true) ∧
    (sched ≠ [] → (runPhaseTrace target sched).flag = true) := by
  have haux := foldl_nonempty_aux target sched hne workerPhaseInit
  refine ⟨rfl, rfl, ?_, haux.1, haux.2, ?_⟩
  · intro r id hfired
    simp [receiverState, RegistryState.remove, hfired, Finset.not_mem_erase]
  · intro hnil
    match sched, hne with
    | e :: rest, hne =>
      have hef : e.2 ≠ RecvState.empty := hne e (List.mem_cons_self e rest)
      have h1 : (workerStep target workerPhaseInit e).flag = true := by
        rw [workerStep_nonempty target workerPhaseInit e hef rfl]
      exact foldl_flag_mono target rest _ h1

/-- Witness for C10 at a concrete schedule: one worker sees a closed
channel, the other a lagged one; nothing is issued, both stop, the phase is
flagged cancelled. -/
theorem cancel_requested_closed_lagged_witness :
    (runPhaseTrace 5 [(0, RecvState.closed), (1, RecvState.lagged)]).issued = 0 ∧
    (runPhaseTrace 5 [(0, RecvState.closed), (1, RecvState.lagged)]).stopped 0 = true ∧
    (runPhaseTrace 5 [(0, RecvState.closed), (1, RecvState.lagged)]).stopped 1 = true ∧
    (runPhaseTrace 5 [(0, RecvState.closed), (1, RecvState.lagged)]).flag = true := by
  have h := cancel_requested_closed_lagged 5 [(0, RecvState.closed), (1, RecvState.lagged)]
    (by decide)
  exact ⟨h.2.2.2.1, h.2.2.2.2.1 (0, RecvState.closed) (by decide),
    h.2.2.2.2.1 (1, RecvState.lagged) (by decide), h.2.2.2.2.2 (by decide)⟩

/-! ### The aggregation fold, decomposed -/

/-- Cancelled samples leave the accumulator untouched. -/
theorem aggStep_cancelled (st : AggState) (x : SampleResult) (h : x.cancelled = true) :
    aggStep st x = st := by
  simp [aggStep, h]

/-- `aggStep` acts on the non-top components as `aggMainStep`. -/
theorem aggStep_main (st : AggState) (x : SampleResult) :
    (aggStep st x).main = aggMainStep st.main x := by
  cases hc : x.cancelled <;> cases hs : x.status_code <;> cases he : x.error_type <;>
    simp [aggStep, aggMainStep, AggState.main, hc, hs, he]

/-- `aggStep` acts on the top-error map as `topStep`. -/
theorem aggStep_top (st : AggState) (x : SampleResult) :
    (aggStep st x).top_error_map = topStep st.top_error_map x := by
  cases hc : x.cancelled <;> cases hs : x.status_code <;> cases he : x.error_type <;>
    simp [aggStep, topStep, hc, hs, he]

/-- Folding the full step and projecting is folding the projected step. -/
theorem foldl_agg_main (l : List SampleResult) :
    ∀ st : AggState, (l.foldl aggStep st).main = l.foldl aggMainStep st.main := by
  induction l with
  | nil => intro st; rfl
  | cons x rest ih =>
    intro st
    rw [List.foldl_cons, List.foldl_cons, ih, aggStep_main]

/-- Folding the full step and projecting the top map is folding `topStep`. -/
theorem foldl_agg_top (l : List SampleResult) :
    ∀ st : AggState, (l.foldl aggStep st).top_error_map = l.foldl topStep st.top_error_map := by
  induction l with
  | nil => intro st; rfl
  | cons x rest ih =>
    intro st
    rw [List.foldl_cons, List.foldl_cons, ih, aggStep_top]

/-- `aggregate_samples`, split along the two independent fold components. -/
theorem aggregate_samples_def (samples : List SampleResult)
    (started_at_ms finished_at_ms top_k_errors : ℕ) :
    aggregate_samples samples started_at_ms finished_at_ms top_k_errors =
      { summary := mkSummary (aggMainOf samples) started_at_ms finished_at_ms
        timeseries := mkTimeseries (aggMainOf samples)
        histogram := mkHistogram (aggMainOf samples).histogram_counts
        top_errors := mkTopErrors (samples.foldl topStep []) top_k_errors } := by
  unfold aggregate_samples aggMainOf
  dsimp only
  rw [foldl_agg_main, foldl_agg_top]
  rfl

/-- Every latency falls into one of the 17 display buckets. -/
theorem histogram_bucket_index_lt (x : ℚ) : histogram_bucket_index x < 17 := by
  unfold histogram_bucket_index
  cases hf : (List.range (HISTOGRAM_EDGES_MS.length - 1)).find? fun idx =>
      decide (HISTOGRAM_EDGES_MS.getD idx 0 ≤ x) &&
        decide (x < HISTOGRAM_EDGES_MS.getD (idx + 1) 0) with
  | none => simp [HISTOGRAM_EDGES_MS]
  | some idx =>
    have hm := List.mem_of_find?_eq_some hf
    have hlt := List.mem_range.mp hm
    have hlen : HISTOGRAM_EDGES_MS.length = 18 := by rfl
    simp only [Option.getD_some]
    omega

/-- Bumping a counter below the range adds one to the range sum. -/
theorem sum_bump (f : ℕ → ℕ) (j n : ℕ) (hj : j < n) :
    ((Finset.range n).sum fun i => if i = j then f i + 1 else f i) =
      (Finset.range n).sum f + 1 := by
  have h1 : ∀ i, (if i = j then f i + 1 else f i) = f i + (if i = j then 1 else 0) := by
    intro i
    split <;> simp
  calc ((Finset.range n).sum fun i => if i = j then f i + 1 else f i)
      = (Finset.range n).sum fun i => f i + (if i = j then 1 else 0) := by
        exact Finset.sum_congr rfl fun i _ => h1 i
    _ = (Finset.range n).sum f + ((Finset.range n).sum fun i => if i = j then 1 else 0) := by
        rw [Finset.sum_add_distrib]
    _ = (Finset.range n).sum f + 1 := by
        rw [Finset.sum_ite_eq' (Finset.range n) j fun _ => 1, if_pos (Finset.mem_range.mpr hj)]

/-- A cancelled sample leaves the non-top accumulator untouched. -/
theorem aggMainStep_cancelled (st : AggMain) (x : SampleResult) (h : x.cancelled = true) :
    aggMainStep st x = st := by
  simp [aggMainStep, h]

/-- How one counted sample moves each non-top accumulator component. -/
theorem aggMainStep_counted (st : AggMain) (x : SampleResult) (h : x.cancelled = false) :
    (aggMainStep st x).total_requests = st.total_requests + 1 ∧
    (aggMainStep st x).success_count =
      (if x.success then st.success_count + 1 else st.success_count) ∧
    (aggMainStep st x).error_count =
      (if x.success then st.error_count else st.error_count + 1) ∧
    (aggMainStep st x).hdr = hdrRecordValue x.latency_ms ::ₘ st.hdr ∧
    (aggMainStep st x).histogram_counts = (fun i =>
      if i = histogram_bucket_index x.latency_ms then st.histogram_counts i + 1
      else st.histogram_counts i) ∧
    (aggMainStep st x).stats = st.stats.add x.latency_ms ∧
    (aggMainStep st x).bytes_in = st.bytes_in + x.bytes_in ∧
    (aggMainStep st x).bytes_out = st.bytes_out + x.bytes_out := by
  cases hs : x.status_code <;> cases he : x.error_type <;> simp [aggMainStep, h, hs, he]

/-- One loop iteration preserves the counting invariants. -/
theorem aggMainStep_inv (st : AggMain) (x : SampleResult) (h : aggInv st) :
    aggInv (aggMainStep st x) := by
  obtain ⟨h1, h2, h3⟩ := h
  cases hc : x.cancelled
  · obtain ⟨e1, e2, e3, e4, e5, _⟩ := aggMainStep_counted st x hc
    refine ⟨?_, ?_, ?_⟩
    · rw [e1, e2, e3]
      by_cases hsu : x.success <;> simp [hsu] <;> omega
    · rw [e4, e1]
      simp [h2]
    · rw [e5, e1, sum_bump _ _ _ (histogram_bucket_index_lt x.latency_ms), h3]
  · rw [aggMainStep_cancelled st x hc]
    exact ⟨h1, h2, h3⟩

/-- The counting invariants hold after folding any sample list. -/
theorem aggMainOf_inv (samples : List SampleResult) : aggInv (aggMainOf samples) := by
  have hinit : aggInv aggInit.main := by
    refine ⟨rfl, rfl, ?_⟩
    simp [aggInit, AggState.main]
  unfold aggMainOf
  generalize aggInit.main = st0 at hinit ⊢
  induction samples generalizing st0 with
  | nil => exact hinit
  | cons x rest ih =>
    rw [List.foldl_cons]
    exact ih _ (aggMainStep_inv st0 x hinit)

/-- `mkSummary` copies the loop's counters verbatim. -/
theorem mkSummary_counts (st : AggMain) (s f : ℕ) :
    (mkSummary st s f).total_requests = st.total_requests ∧
    (mkSummary st s f).success_count = st.success_count ∧
    (mkSummary st s f).error_count = st.error_count := by
  unfold mkSummary
  split <;> exact ⟨rfl, rfl, rfl⟩

/-- The fold never looks at samples it skips: filtering the cancelled
samples away first changes nothing. -/
theorem foldl_aggStep_filter (l : List SampleResult) :
    ∀ st : AggState, l.foldl aggStep st = (l.filter fun x => !x.cancelled).foldl aggStep st := by
  induction l with
  | nil => intro st; rfl
  | cons x rest ih =>
    intro st
    cases hc : x.cancelled
    · simp only [List.filter_cons, hc, Bool.not_false, if_true, List.foldl_cons]
      exact ih (aggStep st x)
    · simp only [List.filter_cons, hc, Bool.not_true, if_false, List.foldl_cons,
        aggStep_cancelled st x hc]
      exact ih st

/-! ### C1: totals count exactly the non-cancelled samples -/

/-- C1.  `total_requests = success_count + error_count`, and a cancelled
sample contributes to nothing: the whole aggregated output (summary,
histogram, time series, top errors) is unchanged if cancelled samples are
filtered out up front. -/
theorem aggregate_counts_cancelled_excluded (samples : List SampleResult)
    (started_at_ms finished_at_ms top_k_errors : ℕ) :
    (aggregate_samples samples started_at_ms finished_at_ms top_k_errors).summary.total_requests =
      (aggregate_samples samples started_at_ms finished_at_ms
          top_k_errors).summary.success_count +
        (aggregate_samples samples started_at_ms finished_at_ms
          top_k_errors).summary.error_count ∧
    aggregate_samples samples started_at_ms finished_at_ms top_k_errors =
      aggregate_samples (samples.filter fun x => !x.cancelled) started_at_ms finished_at_ms
        top_k_errors := by
  constructor
  · obtain ⟨t1, t2, t3⟩ := mkSummary_counts (aggMainOf samples) started_at_ms finished_at_ms
    simp only [aggregate_samples_def]
    rw [t1, t2, t3]
    exact (aggMainOf_inv samples).1
  · unfold aggregate_samples
    dsimp only
    rw [foldl_aggStep_filter]

/-! ### C2: histogram counts sum to the total, zero buckets are omitted -/

/-- Summing the emitted bucket counts recovers the range sum of the raw
counters: zero counters contribute zero either way. -/
theorem range_filterMap_sum (counts : ℕ → ℕ) (n : ℕ) :
    (((List.range n).filterMap fun idx =>
        if counts idx = 0 then none
        else
          some
            (BenchmarkHistogramBucket.mk (HISTOGRAM_EDGES_MS.getD idx 0)
              (HISTOGRAM_EDGES_MS.getD (idx + 1) 0) (counts idx))).map
      BenchmarkHistogramBucket.count).sum = (Finset.range n).sum counts := by
  induction n with
  | zero => rfl
  | succ n ih =>
    rw [List.range_succ, List.filterMap_append, List.map_append, List.sum_append,
      Finset.sum_range_succ, ← ih]
    by_cases h : counts n = 0 <;> simp [h]

/-- C2.  The emitted display-histogram bucket counts sum exactly to
`summary.total_requests` (every counted sample lands in exactly one of the
17 fixed-edge buckets, the last one also catching everything at or beyond
the final edge), and no emitted bucket has count 0. -/
theorem histogram_sums_to_total (samples : List SampleResult)
    (started_at_ms finished_at_ms top_k_errors : ℕ) :
    (((aggregate_samples samples started_at_ms finished_at_ms top_k_errors).histogram.map
        BenchmarkHistogramBucket.count).sum =
      (aggregate_samples samples started_at_ms finished_at_ms
        top_k_errors).summary.total_requests) ∧
    ∀ b ∈ (aggregate_samples samples started_at_ms finished_at_ms top_k_errors).histogram,
      b.count ≠ 0 := by
  simp only [aggregate_samples_def]
  constructor
  · rw [(mkSummary_counts (aggMainOf samples) started_at_ms finished_at_ms).1]
    unfold mkHistogram
    have hl : HISTOGRAM_EDGES_MS.length - 1 = 17 := rfl
    rw [hl, range_filterMap_sum]
    exact (aggMainOf_inv samples).2.2
  · intro b hb
    unfold mkHistogram at hb
    obtain ⟨idx, _, heq⟩ := List.mem_filterMap.mp hb
    by_cases h : (aggMainOf samples).histogram_counts idx = 0
    · rw [if_pos h] at heq
      cases heq
    · rw [if_neg h] at heq
      cases heq
      exact h

/-- Witness for C2 at `demoSamples`: the bucket sum matches the total of 6
counted samples, and a concrete emitted bucket is non-empty. -/
theorem histogram_sums_to_total_witness :
    ((aggregate_samples demoSamples 0 2500 10).histogram.map
        BenchmarkHistogramBucket.count).sum =
      (aggregate_samples demoSamples 0 2500 10).summary.total_requests ∧
    (⟨10, 20, 2⟩ : BenchmarkHistogramBucket).count ≠ 0 :=
  ⟨(histogram_sums_to_total demoSamples 0 2500 10).1,
   (histogram_sums_to_total demoSamples 0 2500 10).2 ⟨10, 20, 2⟩ (by decide)⟩

/-! ### C8: the error-rate formula -/

/-- C8.  `error_rate` is `error_count / total_requests * 100` rounded to 3
decimals, and 0 when there are no counted requests. -/
theorem error_rate_formula (samples : List SampleResult)
    (started_at_ms finished_at_ms top_k_errors : ℕ) :
    (aggregate_samples samples started_at_ms finished_at_ms top_k_errors).summary.error_rate =
      if (aggregate_samples samples started_at_ms finished_at_ms
          top_k_errors).summary.total_requests = 0 then 0
      else
        round_to_3
          (((aggregate_samples samples started_at_ms finished_at_ms
              top_k_errors).summary.error_count : ℚ) /
            ((aggregate_samples samples started_at_ms finished_at_ms
              top_k_errors).summary.total_requests : ℚ) * 100) := by
  obtain ⟨t1, _, t3⟩ := mkSummary_counts (aggMainOf samples) started_at_ms finished_at_ms
  simp only [aggregate_samples_def]
  rw [t1, t3]
  unfold mkSummary
  dsimp only
  by_cases h : (aggMainOf samples).total_requests = 0
  · rw [if_pos h, if_pos h]
    rfl
  · rw [if_neg h, if_neg h]

/-! ### C5: percentile ordering

The chain `p50 ≤ p90 ≤ p95 ≤ p99` holds, but the final `p99 ≤ max_ms` of
the claim fails: the HDR histogram reports the top of the bucket a latency
falls into, which for values above 2048 µs exceeds the raw maximum (a
single 40 ms sample reports `p99_ms = 40.031` against `max_ms = 40`); the
source's own test only demands agreement within `0.1`. -/

/-- The sorted view of the recorded values is sorted. -/
theorem hdrSorted_sorted (m : Multiset ℕ) : (hdrSorted m).Sorted (· ≤ ·) :=
  Quot.inductionOn m fun l => List.sorted_insertionSort _ l

/-- The sorted view has one element per recorded value. -/
theorem hdrSorted_length (m : Multiset ℕ) : (hdrSorted m).length = Multiset.card m :=
  Quot.inductionOn m fun l => by
    show (l.insertionSort (· ≤ ·)).length = Multiset.card (l : Multiset ℕ)
    rw [(List.perm_insertionSort (· ≤ ·) l).length_eq, Multiset.coe_card]

/-- Reading a sorted list at a later in-range position gives a value at
least as large. -/
theorem sorted_getD_mono {l : List ℕ} (hs : l.Sorted (· ≤ ·)) {i j : ℕ}
    (hij : i ≤ j) (hj : j < l.length) : l.getD i 0 ≤ l.getD j 0 := by
  have hi : i < l.length := lt_of_le_of_lt hij hj
  rw [List.getD_eq_getElem?_getD, List.getD_eq_getElem?_getD,
    List.getElem?_eq_getElem hi, List.getElem?_eq_getElem hj, Option.getD_some, Option.getD_some]
  rcases Nat.eq_or_lt_of_le hij with rfl | hlt
  · exact le_refl _
  · have h := List.Sorted.rel_get_of_lt hs (a := ⟨i, hi⟩) (b := ⟨j, hj⟩)
      (Fin.mk_lt_mk.mpr hlt)
    simpa [List.get_eq_getElem] using h

/-- `value_at_quantile` is monotone in the quantile. -/
theorem hdrValueAtQuantile_mono (m : Multiset ℕ) {q₁ q₂ : ℚ} (hq : q₁ ≤ q₂)
    (h2 : q₂ ≤ 1) : hdrValueAtQuantile m q₁ ≤ hdrValueAtQuantile m q₂ := by
  unfold hdrValueAtQuantile
  by_cases hm : Multiset.card m = 0
  · rw [if_pos hm, if_pos hm]
  · rw [if_neg hm, if_neg hm]
    have hlen : (hdrSorted m).length = Multiset.card m := hdrSorted_length m
    have hcast : (0 : ℚ) ≤ (Multiset.card m : ℚ) := by positivity
    have hk2top : ⌈q₂ * (Multiset.card m : ℚ)⌉ ≤ (Multiset.card m : ℤ) := by
      apply Int.ceil_le.mpr
      push_cast
      calc q₂ * (Multiset.card m : ℚ) ≤ 1 * (Multiset.card m : ℚ) :=
            mul_le_mul_of_nonneg_right h2 hcast
        _ = (Multiset.card m : ℚ) := one_mul _
    have hk2 := Int.toNat_le_toNat hk2top
    rw [Int.toNat_natCast] at hk2
    have hce : ⌈q₁ * (Multiset.card m : ℚ)⌉ ≤ ⌈q₂ * (Multiset.card m : ℚ)⌉ :=
      Int.ceil_mono (mul_le_mul_of_nonneg_right hq hcast)
    have hcn := Int.toNat_le_toNat hce
    have hmax : ∀ t : ℕ, Nat.max 1 t = if t = 0 then 1 else t := by
      intro t
      cases t with
      | zero => rfl
      | succ n => simp [Nat.max_eq_right (Nat.succ_le_succ (Nat.zero_le n))]
    apply sorted_getD_mono (hdrSorted_sorted m)
    · rw [hmax, hmax]
      split_ifs <;> omega
    · rw [hlen, hmax]
      split_ifs <;> omega

/-- Rounding to three decimals is monotone. -/
theorem round_to_3_mono {x y : ℚ} (h : x ≤ y) : round_to_3 x ≤ round_to_3 y := by
  unfold round_to_3
  have h1 : round (x * 1000) ≤ round (y * 1000) := by
    rw [round_eq, round_eq]
    exact Int.floor_mono (by linarith)
  have h2 : ((round (x * 1000) : ℤ) : ℚ) ≤ ((round (y * 1000) : ℤ) : ℚ) := Int.cast_le.mpr h1
  linarith

unseal Rat.mul Rat.add Rat.sub Rat.inv in
/-- Counterexample to C5 as stated: for the single successful sample with
latency 40 ms, the reported `p99_ms` is `40.031` (the top of the HDR bucket
holding 40000 µs) while `max_ms` is `40`, so the chain
`p50 ≤ p90 ≤ p95 ≤ p99 ≤ max_ms` fails at its last link. -/
theorem percentile_chain_counterexample :
    ¬((aggregate_samples [⟨1000, 40, some 200, true, none, none, 100, 50, none, false⟩]
          0 1000 10).summary.latency.p50_ms ≤
        (aggregate_samples [⟨1000, 40, some 200, true, none, none, 100, 50, none, false⟩]
          0 1000 10).summary.latency.p90_ms ∧
      (aggregate_samples [⟨1000, 40, some 200, true, none, none, 100, 50, none, false⟩]
          0 1000 10).summary.latency.p90_ms ≤
        (aggregate_samples [⟨1000, 40, some 200, true, none, none, 100, 50, none, false⟩]
          0 1000 10).summary.latency.p95_ms ∧
      (aggregate_samples [⟨1000, 40, some 200, true, none, none, 100, 50, none, false⟩]
          0 1000 10).summary.latency.p95_ms ≤
        (aggregate_samples [⟨1000, 40, some 200, true, none, none, 100, 50, none, false⟩]
          0 1000 10).summary.latency.p99_ms ∧
      (aggregate_samples [⟨1000, 40, some 200, true, none, none, 100, 50, none, false⟩]
          0 1000 10).summary.latency.p99_ms ≤
        (aggregate_samples [⟨1000, 40, some 200, true, none, none, 100, 50, none, false⟩]
          0 1000 10).summary.latency.max_ms) := by
  decide

/-- C5, amended: the reported percentiles are monotone,
`p50_ms ≤ p90_ms ≤ p95_ms ≤ p99_ms`, for every input; the final `≤ max_ms`
of the original claim is dropped (`p99_ms` may exceed `max_ms` by the HDR
bucket quantization, see `percentile_chain_counterexample`). -/
theorem latency_percentiles_monotone (samples : List SampleResult)
    (started_at_ms finished_at_ms top_k_errors : ℕ) :
    (aggregate_samples samples started_at_ms finished_at_ms
        top_k_errors).summary.latency.p50_ms ≤
      (aggregate_samples samples started_at_ms finished_at_ms
        top_k_errors).summary.latency.p90_ms ∧
    (aggregate_samples samples started_at_ms finished_at_ms
        top_k_errors).summary.latency.p90_ms ≤
      (aggregate_samples samples started_at_ms finished_at_ms
        top_k_errors).summary.latency.p95_ms ∧
    (aggregate_samples samples started_at_ms finished_at_ms
        top_k_errors).summary.latency.p95_ms ≤
      (aggregate_samples samples started_at_ms finished_at_ms
        top_k_errors).summary.latency.p99_ms := by
  simp only [aggregate_samples_def]
  unfold mkSummary
  dsimp only
  by_cases h : (aggMainOf samples).total_requests = 0
  · rw [if_pos h]
    exact ⟨le_refl _, le_refl _, le_refl _⟩
  · rw [if_neg h]
    dsimp only
    have h1000 : (0 : ℚ) < 1000 := by norm_num
    refine ⟨?_, ?_, ?_⟩ <;>
      refine round_to_3_mono ((div_le_div_iff_of_pos_right h1000).mpr (Nat.cast_le.mpr ?_))
    · exact hdrValueAtQuantile_mono _ (by norm_num) (by norm_num)
    · exact hdrValueAtQuantile_mono _ (by norm_num) (by norm_num)
    · exact hdrValueAtQuantile_mono _ (by norm_num) (by norm_num)

/-! ### C3: order independence -/

/-- The Welford update is commutative in exact arithmetic: adding two
values in either order produces the same accumulator. -/
theorem runningStats_add_swap (s : RunningStats) (a b : ℚ) :
    (s.add a).add b = (s.add b).add a := by
  have c1 : ((s.count : ℚ) + 1) ≠ 0 := by positivity
  have c2 : ((s.count : ℚ) + 1 + 1) ≠ 0 := by positivity
  have hz : ¬(s.count + 1 = 0) := by omega
  unfold RunningStats.add
  dsimp only
  simp only [if_neg hz, Nat.cast_add, Nat.cast_one]
  apply RunningStats.ext
  · rfl
  · field_simp
    ring
  · field_simp
    ring
  · by_cases h0 : s.count = 0 <;> simp only [h0, if_true, if_false]
    · exact min_comm a b
    · rw [min_assoc, min_comm a b, ← min_assoc]
  · by_cases h0 : s.count = 0 <;> simp only [h0, if_true, if_false]
    · exact max_comm a b
    · rw [max_assoc, max_comm a b, ← max_assoc]

/-- Per-second bucket accumulation is commutative. -/
theorem seriesBucket_add_swap (b : SeriesBucket) (x y : SampleResult) :
    (b.add x).add y = (b.add y).add x := by
  unfold SeriesBucket.add
  apply SeriesBucket.ext
  · by_cases hx : x.success <;> by_cases hy : y.success <;> simp [hx, hy]
  · by_cases hx : x.success <;> by_cases hy : y.success <;> simp [hx, hy]
  · exact Multiset.cons_swap _ _ _
  · dsimp only
    omega
  · dsimp only
    omega

/-- The non-top accumulator after one counted sample, as one record. -/
theorem aggMainStep_counted_eq (st : AggMain) (x : SampleResult) (h : x.cancelled = false) :
    aggMainStep st x =
      { total_requests := st.total_requests + 1
        success_count := if x.success then st.success_count + 1 else st.success_count
        error_count := if x.success then st.error_count else st.error_count + 1
        bytes_in := st.bytes_in + x.bytes_in
        bytes_out := st.bytes_out + x.bytes_out
        status_code_counts := updStatusCounts st.status_code_counts x
        error_type_counts := updErrorTypeCounts st.error_type_counts x
        stats := st.stats.add x.latency_ms
        hdr := hdrRecordValue x.latency_ms ::ₘ st.hdr
        histogram_counts := fun i =>
          if i = histogram_bucket_index x.latency_ms then st.histogram_counts i + 1
          else st.histogram_counts i
        series_keys := insert (x.timestamp_ms / 1000 * 1000) st.series_keys
        series := fun t =>
          if t = x.timestamp_ms / 1000 * 1000 then (st.series t).add x
          else st.series t } := by
  cases hs : x.status_code <;> cases he : x.error_type <;>
    simp [aggMainStep, updStatusCounts, updErrorTypeCounts, h, hs, he]

/-- Bumping a counter function at two keys commutes. -/
theorem bump_count_comm {α : Type} [DecidableEq α] (f : α → ℕ) (j₁ j₂ : α) :
    (fun k => if k = j₂ then (if k = j₁ then f k + 1 else f k) + 1
              else (if k = j₁ then f k + 1 else f k)) =
    (fun k => if k = j₁ then (if k = j₂ then f k + 1 else f k) + 1
              else (if k = j₂ then f k + 1 else f k)) := by
  funext k
  by_cases h1 : k = j₁ <;> by_cases h2 : k = j₂
  · simp only [if_pos h1, if_pos h2]
  · simp only [if_pos h1, if_neg h2]
  · simp only [if_neg h1, if_pos h2]
  · simp only [if_neg h1, if_neg h2]

/-- Counter-function updates for two samples commute. -/
theorem updStatusCounts_comm (f : ℕ → ℕ) (x y : SampleResult) :
    updStatusCounts (updStatusCounts f x) y = updStatusCounts (updStatusCounts f y) x := by
  unfold updStatusCounts
  cases hx : x.status_code with
  | none => cases hy : y.status_code <;> rfl
  | some sx =>
    cases hy : y.status_code with
    | none => rfl
    | some sy => exact bump_count_comm f sx sy

/-- Error-type counter updates for two samples commute. -/
theorem updErrorTypeCounts_comm (f : String → ℕ) (x y : SampleResult) :
    updErrorTypeCounts (updErrorTypeCounts f x) y =
      updErrorTypeCounts (updErrorTypeCounts f y) x := by
  unfold updErrorTypeCounts
  cases hx : x.error_type with
  | none => cases hy : y.error_type <;> rfl
  | some sx =>
    cases hy : y.error_type with
    | none => rfl
    | some sy => exact bump_count_comm f sx sy

/-- Updating the per-second map at two bucket keys commutes. -/
theorem updSeries_comm (g : ℕ → SeriesBucket) (x y : SampleResult) (bx by' : ℕ) :
    (fun t => if t = by' then (if t = bx then (g t).add x else g t).add y
              else (if t = bx then (g t).add x else g t)) =
    (fun t => if t = bx then (if t = by' then (g t).add y else g t).add x
              else (if t = by' then (g t).add y else g t)) := by
  funext t
  by_cases h1 : t = bx <;> by_cases h2 : t = by'
  · simp only [if_pos h1, if_pos h2]
    exact seriesBucket_add_swap _ x y
  · simp only [if_pos h1, if_neg h2]
  · simp only [if_neg h1, if_pos h2]
  · simp only [if_neg h1, if_neg h2]

/-- The non-top aggregation step is right-commutative: every component of
the accumulator is built by commutative accumulation. -/
theorem aggMainStep_comm (z : AggMain) (x y : SampleResult) :
    aggMainStep (aggMainStep z x) y = aggMainStep (aggMainStep z y) x := by
  cases hcx : x.cancelled <;> cases hcy : y.cancelled
  · rw [aggMainStep_counted_eq z x hcx, aggMainStep_counted_eq _ y hcy,
      aggMainStep_counted_eq z y hcy, aggMainStep_counted_eq _ x hcx]
    apply AggMain.ext
    · rfl
    · by_cases hx : x.success <;> by_cases hy : y.success <;> simp [hx, hy]
    · by_cases hx : x.success <;> by_cases hy : y.success <;> simp [hx, hy]
    · dsimp only
      omega
    · dsimp only
      omega
    · exact updStatusCounts_comm _ x y
    · exact updErrorTypeCounts_comm _ x y
    · exact runningStats_add_swap _ _ _
    · exact Multiset.cons_swap _ _ _
    · exact bump_count_comm z.histogram_counts (histogram_bucket_index x.latency_ms)
        (histogram_bucket_index y.latency_ms)
    · exact Finset.Insert.comm _ _ _
    · exact updSeries_comm z.series x y (x.timestamp_ms / 1000 * 1000)
        (y.timestamp_ms / 1000 * 1000)
  · simp only [aggMainStep_cancelled, hcy]
  · simp only [aggMainStep_cancelled, hcx]
  · simp only [aggMainStep_cancelled, hcx, hcy]

/-- C3.  Aggregating any permutation of the sample list yields the same
summary (totals, byte counts, error rate, rps, min/avg/max, variance —
hence stddev — percentiles, status-code and error-type counts), the same
histogram and the same time series.  (`top_errors` is excluded, as in the
claim: its tie order comes from `HashMap` iteration order.) -/
theorem aggregate_order_independent (l₁ l₂ : List SampleResult)
    (started_at_ms finished_at_ms top_k_errors : ℕ) (h : l₁.Perm l₂) :
    (aggregate_samples l₁ started_at_ms finished_at_ms top_k_errors).summary =
      (aggregate_samples l₂ started_at_ms finished_at_ms top_k_errors).summary ∧
    (aggregate_samples l₁ started_at_ms finished_at_ms top_k_errors).timeseries =
      (aggregate_samples l₂ started_at_ms finished_at_ms top_k_errors).timeseries ∧
    (aggregate_samples l₁ started_at_ms finished_at_ms top_k_errors).histogram =
      (aggregate_samples l₂ started_at_ms finished_at_ms top_k_errors).histogram := by
  have hm : aggMainOf l₁ = aggMainOf l₂ :=
    h.foldl_eq' (fun x _ y _ z => aggMainStep_comm z x y) _
  rw [aggregate_samples_def, aggregate_samples_def, hm]
  exact ⟨rfl, rfl, rfl⟩

/-- Witness for C3: swapping the two samples of a concrete list leaves
summary, time series and histogram unchanged. -/
theorem aggregate_order_independent_witness :
    (aggregate_samples
        [⟨1000, 10, some 200, true, none, none, 100, 50, none, false⟩,
         ⟨2000, 15, some 503, false, some "HTTP_STATUS_5XX", some "HTTP 503", 80, 50, none,
           false⟩] 0 2500 10).summary =
      (aggregate_samples
        [⟨2000, 15, some 503, false, some "HTTP_STATUS_5XX", some "HTTP 503", 80, 50, none,
           false⟩,
         ⟨1000, 10, some 200, true, none, none, 100, 50, none, false⟩] 0 2500 10).summary :=
  (aggregate_order_independent _ _ 0 2500 10
    (List.Perm.swap _ _ [])).1

/-! ### C4: the top-error list -/

theorem digitVal_digitChar : ∀ n < 10, digitVal (Nat.digitChar n) = n := by decide

theorem digitChar_ne_bar : ∀ n < 10, Nat.digitChar n ≠ '|' := by decide

/-- The decimal rendering of a status code contains no separator. -/
theorem natKey_ne_bar (n : ℕ) : '|' ∉ natKey n := by
  induction n using Nat.strong_induction_on with
  | _ n ih =>
    unfold natKey
    split
    · intro hmem
      rcases List.mem_singleton.mp hmem with h
      exact digitChar_ne_bar n (by omega) h.symm
    · intro hmem
      rcases List.mem_append.mp hmem with h | h
      · exact ih (n / 10) (Nat.div_lt_self (by omega) (by omega)) h
      · rcases List.mem_singleton.mp h with h
        exact digitChar_ne_bar (n % 10) (Nat.mod_lt n (by omega)) h.symm

/-- Reading back the decimal rendering recovers the number. -/
theorem digitsVal_natKey (n : ℕ) : digitsVal (natKey n) = n := by
  induction n using Nat.strong_induction_on with
  | _ n ih =>
    unfold natKey
    split
    · next h =>
      show 0 * 10 + digitVal (Nat.digitChar n) = n
      rw [digitVal_digitChar n h]
      omega
    · next h =>
      unfold digitsVal
      rw [List.foldl_append]
      show digitsVal (natKey (n / 10)) * 10 + digitVal (Nat.digitChar (n % 10)) = n
      rw [ih (n / 10) (Nat.div_lt_self (by omega) (by omega)),
        digitVal_digitChar (n % 10) (Nat.mod_lt n (by omega))]
      omega

/-- The decimal rendering is injective. -/
theorem natKey_injective {m n : ℕ} (h : natKey m = natKey n) : m = n := by
  rw [← digitsVal_natKey m, h, digitsVal_natKey]

/-- Splitting at the first separator is unambiguous when the prefixes are
separator-free. -/
theorem append_bar_inj :
    ∀ (a₁ : List Char) {r₁ : List Char} (a₂ : List Char) {r₂ : List Char},
      '|' ∉ a₁ → '|' ∉ a₂ → a₁ ++ '|' :: r₁ = a₂ ++ '|' :: r₂ → a₁ = a₂ ∧ r₁ = r₂ := by
  intro a₁
  induction a₁ with
  | nil =>
    intro r₁ a₂ r₂ _ h₂ heq
    cases a₂ with
    | nil => simpa using heq
    | cons d ds =>
      exfalso
      simp only [List.nil_append, List.cons_append, List.cons.injEq] at heq
      exact h₂ (heq.1 ▸ List.mem_cons_self d ds)
  | cons c cs ih =>
    intro r₁ a₂ r₂ h₁ h₂ heq
    cases a₂ with
    | nil =>
      exfalso
      simp only [List.nil_append, List.cons_append, List.cons.injEq] at heq
      exact h₁ (heq.1 ▸ List.mem_cons_self c cs)
    | cons d ds =>
      simp only [List.cons_append, List.cons.injEq] at heq
      obtain ⟨hcd, hrest⟩ := heq
      have h₁' : '|' ∉ cs := fun hm => h₁ (List.mem_cons_of_mem c hm)
      have h₂' : '|' ∉ ds := fun hm => h₂ (List.mem_cons_of_mem d hm)
      obtain ⟨he, hr⟩ := ih ds h₁' h₂' hrest
      exact ⟨by rw [hcd, he], hr⟩

/-- Two separator-free-typed triples with the same key are equal. -/
theorem keyOfTriple_inj {t₁ t₂ : String × ℕ × String}
    (h₁ : '|' ∉ t₁.1.data) (h₂ : '|' ∉ t₂.1.data)
    (heq : keyOfTriple t₁ = keyOfTriple t₂) : t₁ = t₂ := by
  unfold keyOfTriple at heq
  obtain ⟨hty, hrest⟩ := append_bar_inj _ _ h₁ h₂ heq
  obtain ⟨hst, hmsg⟩ := append_bar_inj _ _ (natKey_ne_bar _) (natKey_ne_bar _) hrest
  obtain ⟨ty₁, st₁, msg₁⟩ := t₁
  obtain ⟨ty₂, st₂, msg₂⟩ := t₂
  simp only at hty hst hmsg
  have e1 : ty₁ = ty₂ := by
    cases ty₁
    cases ty₂
    exact congrArg String.mk (by simpa using hty)
  have e2 : st₁ = st₂ := natKey_injective hst
  have e3 : msg₁ = msg₂ := by
    cases msg₁
    cases msg₂
    exact congrArg String.mk (by simpa using hmsg)
  rw [e1, e2, e3]

/-- A sample's key is the key of its triple. -/
theorem sampleErrorKey_eq (x : SampleResult) :
    sampleErrorKey x = (sampleErrorTriple x).map keyOfTriple := by
  unfold sampleErrorKey sampleErrorTriple
  cases hc : x.cancelled <;> cases he : x.error_type <;> rfl

/-- The key list is the triple list rendered through `keyOfTriple`. -/
theorem errorKeys_eq (l : List SampleResult) :
    errorKeys l = (errorTriples l).map keyOfTriple := by
  unfold errorKeys errorTriples
  rw [List.map_filterMap]
  exact List.filterMap_congr fun x _ => sampleErrorKey_eq x

/-- The keys after an update: unchanged when the key is present, the key
appended when it is new. -/
theorem updateTopError_keys (acc : List (List Char × BenchmarkErrorSample))
    (key : List Char) (x : SampleResult) (ty : String) :
    (updateTopError acc key x ty).map Prod.fst =
      if key ∈ acc.map Prod.fst then acc.map Prod.fst
      else acc.map Prod.fst ++ [key] := by
  induction acc with
  | nil => simp [updateTopError]
  | cons q rest ih =>
    obtain ⟨k, e⟩ := q
    by_cases hk : k = key
    · subst hk
      simp [updateTopError]
    · simp only [updateTopError, if_neg hk, List.map_cons, ih]
      by_cases hmem : key ∈ rest.map Prod.fst
      · rw [if_pos hmem, if_pos (by simp [hmem])]
      · rw [if_neg hmem,
          if_neg (by
            simp only [List.mem_cons, not_or]
            exact ⟨fun h => hk h.symm, hmem⟩)]
        rfl

/-- Where each entry of an update comes from: an untouched entry at a
different key, a fresh entry at a new key, or a bumped existing entry. -/
theorem updateTopError_cases (acc : List (List Char × BenchmarkErrorSample))
    (key : List Char) (x : SampleResult) (ty : String)
    (hnodup : (acc.map Prod.fst).Nodup) :
    ∀ p ∈ updateTopError acc key x ty,
      (p.1 ≠ key ∧ p ∈ acc) ∨
      (p.1 = key ∧
        ((key ∉ acc.map Prod.fst ∧ p.2 = newErrorEntry x ty) ∨
          ∃ e, (key, e) ∈ acc ∧ p.2 = bumpEntry e x)) := by
  induction acc with
  | nil =>
    intro p hp
    simp only [updateTopError, List.mem_singleton] at hp
    subst hp
    exact Or.inr ⟨rfl, Or.inl ⟨by simp, rfl⟩⟩
  | cons q rest ih =>
    obtain ⟨k, e⟩ := q
    have hnodup' : k ∉ rest.map Prod.fst ∧ (rest.map Prod.fst).Nodup :=
      List.nodup_cons.mp (show (k :: rest.map Prod.fst).Nodup from hnodup)
    intro p hp
    by_cases hk : k = key
    · subst hk
      simp only [updateTopError, if_pos rfl] at hp
      rcases List.mem_cons.mp hp with rfl | hmem
      · exact Or.inr ⟨rfl, Or.inr ⟨e, List.mem_cons_self _ _, rfl⟩⟩
      · refine Or.inl ⟨?_, List.mem_cons_of_mem _ hmem⟩
        intro hpk
        exact hnodup'.1 (hpk ▸ List.mem_map_of_mem Prod.fst hmem)
    · simp only [updateTopError, if_neg hk] at hp
      rcases List.mem_cons.mp hp with rfl | hmem
      · exact Or.inl ⟨fun h => hk h, List.mem_cons_self _ _⟩
      · rcases ih hnodup'.2 p hmem with ⟨hne, hin⟩ | ⟨heq, hcase⟩
        · exact Or.inl ⟨hne, List.mem_cons_of_mem _ hin⟩
        · refine Or.inr ⟨heq, ?_⟩
          rcases hcase with ⟨hnot, hnew⟩ | ⟨e', hin, hbump⟩
          · refine Or.inl ⟨?_, hnew⟩
            simp only [List.map_cons, List.mem_cons]
            rintro (h | h)
            · exact hk h.symm
            · exact hnot h
          · exact Or.inr ⟨e', List.mem_cons_of_mem _ hin, hbump⟩

/-- One loop iteration preserves the invariant. -/
theorem topStep_inv (ps : List SampleResult) (x : SampleResult)
    (acc : List (List Char × BenchmarkErrorSample)) (hinv : TopInv ps acc) :
    TopInv (ps ++ [x]) (topStep acc x) := by
  obtain ⟨hnodup, hmem, hent⟩ := hinv
  have hweak : ∀ p ∈ acc,
      p.2.count = (errorKeys ps).count p.1 ∧
      ∃ x' ∈ ps ++ [x], x'.cancelled = false ∧ x'.error_type = some p.2.error_type ∧
        x'.status_code = p.2.status_code ∧
        p.2.message = x'.error_message.getD "Unknown benchmark error" ∧
        p.1 = errorKey p.2.error_type x'.status_code x'.error_message := by
    intro p hp
    obtain ⟨hc, x', hx', hrest⟩ := hent p hp
    exact ⟨hc, x', List.mem_append_left _ hx', hrest⟩
  cases hc : x.cancelled
  case true =>
    have hk0 : errorKeys (ps ++ [x]) = errorKeys ps := by
      simp [errorKeys, List.filterMap_append, sampleErrorKey, hc]
    have hstep : topStep acc x = acc := by simp [topStep, hc]
    rw [hstep]
    refine ⟨hnodup, ?_, ?_⟩
    · intro kk
      rw [hk0]
      exact hmem kk
    · intro p hp
      obtain ⟨hcnt, hw⟩ := hweak p hp
      exact ⟨by rw [hk0]; exact hcnt, hw⟩
  case false =>
    cases he : x.error_type with
    | none =>
      have hk0 : errorKeys (ps ++ [x]) = errorKeys ps := by
        simp [errorKeys, List.filterMap_append, sampleErrorKey, hc, he]
      have hstep : topStep acc x = acc := by simp [topStep, hc, he]
      rw [hstep]
      refine ⟨hnodup, ?_, ?_⟩
      · intro kk
        rw [hk0]
        exact hmem kk
      · intro p hp
        obtain ⟨hcnt, hw⟩ := hweak p hp
        exact ⟨by rw [hk0]; exact hcnt, hw⟩
    | some ty =>
      have hk1 : errorKeys (ps ++ [x]) =
          errorKeys ps ++ [errorKey ty x.status_code x.error_message] := by
        simp [errorKeys, List.filterMap_append, sampleErrorKey, hc, he]
      have hstep : topStep acc x =
          updateTopError acc (errorKey ty x.status_code x.error_message) x ty := by
        simp [topStep, hc, he]
      rw [hstep]
      set key := errorKey ty x.status_code x.error_message with hkey
      have hcount_app : ∀ k' : List Char,
          (errorKeys (ps ++ [x])).count k' =
            (errorKeys ps).count k' + (if key = k' then 1 else 0) := by
        intro k'
        rw [hk1, List.count_append, List.count_singleton]
        simp
      have hmem_app : ∀ kk : List Char,
          kk ∈ errorKeys (ps ++ [x]) ↔ kk ∈ errorKeys ps ∨ kk = key := by
        intro kk
        rw [hk1]
        simp
      refine ⟨?_, ?_, ?_⟩
      · rw [updateTopError_keys]
        split
        · exact hnodup
        · next hnot =>
          rw [List.nodup_append]
          exact ⟨hnodup, List.nodup_singleton key, by simpa using hnot⟩
      · intro kk
        rw [updateTopError_keys, hmem_app kk]
        split
        · next hpos =>
          rw [hmem kk]
          constructor
          · exact fun h => Or.inl h
          · rintro (h | h)
            · exact h
            · rw [h]
              exact (hmem key).mp hpos
        · next hneg =>
          simp only [List.mem_append, List.mem_singleton, hmem kk]
      · intro p hp
        rcases updateTopError_cases acc key x ty hnodup p hp with
          ⟨hne, hin⟩ | ⟨heq, hcase⟩
        · obtain ⟨hcnt, hw⟩ := hweak p hin
          refine ⟨?_, hw⟩
          rw [hcount_app, hcnt, if_neg (fun h : key = p.1 => hne h.symm)]
          omega
        · rcases hcase with ⟨hnot, hnew⟩ | ⟨e, hin, hbump⟩
          · have hzero : (errorKeys ps).count key = 0 :=
              List.count_eq_zero.mpr fun hmem' => hnot ((hmem key).mpr hmem')
            refine ⟨?_, ?_⟩
            · rw [hcount_app, heq, hzero, if_pos rfl, hnew]
              rfl
            · refine ⟨x, List.mem_append_right _ (List.mem_singleton.mpr rfl), hc,
                ?_, ?_, ?_, ?_⟩
              · rw [hnew]
                exact he
              · rw [hnew]
                rfl
              · rw [hnew]
                rfl
              · rw [heq, hnew]
                rfl
          · obtain ⟨hcnt, hw⟩ := hweak (key, e) hin
            refine ⟨?_, ?_⟩
            · rw [hcount_app, heq, if_pos rfl, hbump]
              show e.count + 1 = _
              rw [hcnt]
            · obtain ⟨x', hx', hxc, hxt, hxs, hxm, hxk⟩ := hw
              rw [heq, hbump]
              exact ⟨x', hx', hxc, hxt, hxs, hxm, hxk⟩

/-- The invariant after folding a whole suffix of samples. -/
theorem foldl_topStep_inv (l : List SampleResult) :
    ∀ (ps : List SampleResult) (acc : List (List Char × BenchmarkErrorSample)),
      TopInv ps acc → TopInv (ps ++ l) (l.foldl topStep acc) := by
  induction l with
  | nil => intro ps acc h; simpa using h
  | cons x rest ih =>
    intro ps acc h
    have h3 := ih (ps ++ [x]) (topStep acc x) (topStep_inv ps x acc h)
    simpa [List.append_assoc] using h3

/-- The invariant holds of the final top-error map. -/
theorem topInv_final (samples : List SampleResult) :
    TopInv samples (samples.foldl topStep []) := by
  have h0 : TopInv [] [] := by
    refine ⟨List.nodup_nil, ?_, ?_⟩
    · intro kk
      simp [errorKeys]
    · intro p hp
      cases hp
  simpa using foldl_topStep_inv samples [] [] h0

/-- Error triples are exactly the counted error samples' triples. -/
theorem mem_errorTriples {samples : List SampleResult} {t : String × ℕ × String} :
    t ∈ errorTriples samples ↔
      ∃ x ∈ samples, x.cancelled = false ∧ x.error_type = some t.1 ∧
        x.status_code.getD 0 = t.2.1 ∧ x.error_message.getD "" = t.2.2 := by
  unfold errorTriples
  rw [List.mem_filterMap]
  constructor
  · rintro ⟨x, hx, hs⟩
    unfold sampleErrorTriple at hs
    cases hc : x.cancelled <;> rw [hc] at hs
    · cases he : x.error_type <;> rw [he] at hs
      · cases hs
      · next ty =>
        obtain rfl := (Option.some_injective _ (by simpa using hs)).symm
        exact ⟨x, hx, hc, he, rfl, rfl⟩
    · cases hs
  · rintro ⟨x, hx, hc, he, hst, hmsg⟩
    refine ⟨x, hx, ?_⟩
    unfold sampleErrorTriple
    rw [hc, he]
    obtain ⟨t1, t2, t3⟩ := t
    simp only at he hst hmsg ⊢
    rw [if_neg (by simp), hst, hmsg]
    rfl

/-- Under the no-separator hypothesis, every triple's type is
separator-free. -/
theorem errorTriples_no_bar {samples : List SampleResult}
    (hbar : ∀ x ∈ samples, '|' ∉ (x.error_type.getD "").data) :
    ∀ t ∈ errorTriples samples, '|' ∉ t.1.data := by
  intro t ht
  obtain ⟨x, hx, _, he, _, _⟩ := mem_errorTriples.mp ht
  have := hbar x hx
  rw [he] at this
  exact this

/-- Counting an image value under a locally injective map counts the
preimage. -/
theorem count_map_of_inj_at {α β : Type} [BEq α] [LawfulBEq α] [BEq β] [LawfulBEq β]
    (l : List α) (f : α → β) (a : α) (hinj : ∀ b ∈ l, f b = f a → b = a) :
    (l.map f).count (f a) = l.count a := by
  induction l with
  | nil => rfl
  | cons x xs ih =>
    have hx := hinj x (List.mem_cons_self x xs)
    have ihx := ih fun b hb => hinj b (List.mem_cons_of_mem x hb)
    rw [List.map_cons, List.count_cons (f a) (f x), List.count_cons a x, ihx]
    by_cases hfx : f x = f a
    · rw [if_pos (by simpa using hfx), if_pos (by simpa using hx hfx)]
    · rw [if_neg (by simpa using hfx),
        if_neg (by simpa using fun h : x = a => hfx (h ▸ rfl))]

/-- Key multiplicities agree with triple multiplicities. -/
theorem count_key_eq_count_triple {samples : List SampleResult}
    (hbar : ∀ x ∈ samples, '|' ∉ (x.error_type.getD "").data)
    {t : String × ℕ × String} (ht : t ∈ errorTriples samples) :
    (errorKeys samples).count (keyOfTriple t) = (errorTriples samples).count t := by
  rw [errorKeys_eq]
  refine count_map_of_inj_at _ _ _ ?_
  intro b hb hfb
  exact keyOfTriple_inj (errorTriples_no_bar hbar b hb)
    (errorTriples_no_bar hbar t ht) hfb

/-- Distinct keys are as many as distinct triples. -/
theorem dedup_keys_eq_dedup_triples {samples : List SampleResult}
    (hbar : ∀ x ∈ samples, '|' ∉ (x.error_type.getD "").data) :
    (errorKeys samples).dedup.length = (errorTriples samples).dedup.length := by
  rw [errorKeys_eq, ← List.card_toFinset, ← List.card_toFinset]
  have himg : ((errorTriples samples).map keyOfTriple).toFinset =
      (errorTriples samples).toFinset.image keyOfTriple := by
    ext b
    simp [List.mem_toFinset, Finset.mem_image]
  rw [himg]
  refine Finset.card_image_of_injOn ?_
  intro a ha b hb hab
  exact keyOfTriple_inj (errorTriples_no_bar hbar a (List.mem_toFinset.mp ha))
    (errorTriples_no_bar hbar b (List.mem_toFinset.mp hb)) hab

/-- The top-error map has one entry per distinct triple. -/
theorem topMap_length (samples : List SampleResult)
    (hbar : ∀ x ∈ samples, '|' ∉ (x.error_type.getD "").data) :
    (samples.foldl topStep []).length = (errorTriples samples).dedup.length := by
  obtain ⟨hnodup, hmem, _⟩ := topInv_final samples
  have h2 : ((samples.foldl topStep []).map Prod.fst).toFinset =
      (errorKeys samples).toFinset := by
    ext kk
    simp only [List.mem_toFinset]
    exact hmem kk
  calc (samples.foldl topStep []).length
      = ((samples.foldl topStep []).map Prod.fst).length := (List.length_map _ _).symm
    _ = ((samples.foldl topStep []).map Prod.fst).toFinset.card :=
        (List.toFinset_card_of_nodup hnodup).symm
    _ = (errorKeys samples).toFinset.card := by rw [h2]
    _ = (errorKeys samples).dedup.length := List.card_toFinset _
    _ = (errorTriples samples).dedup.length := dedup_keys_eq_dedup_triples hbar

/-- C4.  The top-error list groups counted error samples by the triple
(error type, status code with the source's default 0, message with the
source's default empty string): it is sorted by count descending with ties
broken by error-type name ascending; its length is exactly
`min (top_k.max 1) D`, `D` the number of distinct triples — so exactly the
cap when there are more distinct triples than the cap, and all of them
when there are fewer; each entry carries its group's identity and exact
multiplicity; and when `D` fits the cap every triple appears.  The
hypothesis — error-type tags contain no `'|'` — holds of every tag this
engine produces; without it the string key `type|status|message` could
conflate distinct triples. -/
theorem top_errors_grouped_sorted (samples : List SampleResult)
    (started_at_ms finished_at_ms top_k_errors : ℕ)
    (hbar : ∀ x ∈ samples, '|' ∉ (x.error_type.getD "").data) :
    List.Sorted topErrorLE
      (aggregate_samples samples started_at_ms finished_at_ms top_k_errors).top_errors ∧
    (aggregate_samples samples started_at_ms finished_at_ms
        top_k_errors).top_errors.length =
      min (Nat.max top_k_errors 1) (errorTriples samples).dedup.length ∧
    (∀ e ∈ (aggregate_samples samples started_at_ms finished_at_ms
        top_k_errors).top_errors,
      ∃ x ∈ samples, x.cancelled = false ∧ x.error_type = some e.error_type ∧
        x.status_code = e.status_code ∧
        e.message = x.error_message.getD "Unknown benchmark error" ∧
        e.count = (errorTriples samples).count
          (e.error_type, x.status_code.getD 0, x.error_message.getD "")) ∧
    ((errorTriples samples).dedup.length ≤ Nat.max top_k_errors 1 →
      ∀ t ∈ errorTriples samples,
        ∃ e ∈ (aggregate_samples samples started_at_ms finished_at_ms
            top_k_errors).top_errors,
          e.error_type = t.1 ∧ e.count = (errorTriples samples).count t) := by
  have hT : (aggregate_samples samples started_at_ms finished_at_ms
      top_k_errors).top_errors =
      (((samples.foldl topStep []).map Prod.snd).insertionSort topErrorLE).take
        (Nat.max top_k_errors 1) := by
    rw [aggregate_samples_def]
    rfl
  obtain ⟨hnodup, hmem, hent⟩ := topInv_final samples
  set fold := samples.foldl topStep [] with hfold
  set sortedL := (fold.map Prod.snd).insertionSort topErrorLE with hsorted
  have hsortlen : sortedL.length = (errorTriples samples).dedup.length := by
    rw [hsorted, (List.perm_insertionSort topErrorLE _).length_eq, List.length_map]
    exact topMap_length samples hbar
  refine ⟨?_, ?_, ?_, ?_⟩
  · rw [hT]
    exact List.Pairwise.sublist (List.take_sublist _ _)
      (List.sorted_insertionSort topErrorLE _)
  · rw [hT, List.length_take, hsortlen]
  · intro e he
    rw [hT] at he
    have he3 : e ∈ fold.map Prod.snd :=
      ((List.perm_insertionSort topErrorLE _).mem_iff).mp (List.mem_of_mem_take he)
    obtain ⟨p, hp, hpe⟩ := List.mem_map.mp he3
    obtain ⟨hcnt, x, hx, hxc, hxt, hxs, hxm, hxk⟩ := hent p hp
    subst hpe
    refine ⟨x, hx, hxc, hxt, hxs, hxm, ?_⟩
    have htr : (p.2.error_type, x.status_code.getD 0, x.error_message.getD "") ∈
        errorTriples samples :=
      mem_errorTriples.mpr ⟨x, hx, hxc, hxt, rfl, rfl⟩
    have hkey2 : p.1 =
        keyOfTriple (p.2.error_type, x.status_code.getD 0, x.error_message.getD "") := hxk
    rw [hcnt, hkey2, count_key_eq_count_triple hbar htr]
  · intro hD t ht
    have htake : sortedL.take (Nat.max top_k_errors 1) = sortedL :=
      List.take_of_length_le (by rw [hsortlen]; exact hD)
    have hkeymem : keyOfTriple t ∈ errorKeys samples := by
      rw [errorKeys_eq]
      exact List.mem_map_of_mem keyOfTriple ht
    have hkf : keyOfTriple t ∈ fold.map Prod.fst := (hmem _).mpr hkeymem
    obtain ⟨p, hp, hpk⟩ := List.mem_map.mp hkf
    obtain ⟨hcnt, x, hx, hxc, hxt, hxs, hxm, hxk⟩ := hent p hp
    have htr' : (p.2.error_type, x.status_code.getD 0, x.error_message.getD "") ∈
        errorTriples samples :=
      mem_errorTriples.mpr ⟨x, hx, hxc, hxt, rfl, rfl⟩
    have hkeq : keyOfTriple (p.2.error_type, x.status_code.getD 0,
        x.error_message.getD "") = keyOfTriple t :=
      (show keyOfTriple (p.2.error_type, x.status_code.getD 0,
        x.error_message.getD "") = p.1 from hxk.symm).trans hpk
    have hteq : (p.2.error_type, x.status_code.getD 0, x.error_message.getD "") = t :=
      keyOfTriple_inj (errorTriples_no_bar hbar _ htr')
        (errorTriples_no_bar hbar t ht) hkeq
    refine ⟨p.2, ?_, ?_, ?_⟩
    · rw [hT, htake]
      exact ((List.perm_insertionSort topErrorLE _).mem_iff).mpr
        (List.mem_map_of_mem Prod.snd hp)
    · rw [← hteq]
    · rw [hcnt, hpk, count_key_eq_count_triple hbar ht]

/-- Witness for C4 at `demoSamples` with a cap of 1: two distinct error
triples exist (two timeouts, one 503), so the emitted list has exactly
`min 1 2 = 1` entry. -/
theorem top_errors_grouped_sorted_witness :
    (aggregate_samples demoSamples 0 2500 1).top_errors.length =
      min (Nat.max 1 1) (errorTriples demoSamples).dedup.length :=
  (top_errors_grouped_sorted demoSamples 0 2500 1 (by decide)).2.1

end Getman
